import Mathlib

/-!
Shallow embedding of the chat-room repository's Room Session & Secure
Synchronization Layer (Pinia store `roomStore.ts` and its drafts).

JavaScript strings are modelled as Lean `String` (a list of Unicode
scalars); `charCodeAt` iteration is modelled through explicit UTF-16
code-unit expansion, `TextEncoder`/`TextDecoder` through an explicit
UTF-8 codec (WHATWG replacement-on-error decoding), `btoa`/`atob`
through an explicit base64 codec (forgiving decode), and the 32-bit
arithmetic of the keystream through `Nat` with explicit `% 2^32`.
Host-provided nondeterminism (crypto.randomUUID, Date.now) is passed to
the operations as explicit parameters.
-/

namespace ChatRoom

/-! ## JavaScript string primitives -/

/-- The code points removed by `String.prototype.trim`
(WhiteSpace ∪ LineTerminator). -/
def jsIsWsNat (n : Nat) : Bool :=
  n == 0x9 || n == 0xA || n == 0xB || n == 0xC ||
  n == 0xD || n == 0x20 || n == 0xA0 || n == 0x1680 ||
  (0x2000 ≤ n && n ≤ 0x200A) || n == 0x2028 ||
  n == 0x2029 || n == 0x202F || n == 0x205F ||
  n == 0x3000 || n == 0xFEFF

/-- The set of characters removed by `String.prototype.trim`. -/
def jsIsWs (c : Char) : Bool := jsIsWsNat c.toNat

/-- `l` with leading and trailing JS whitespace removed. -/
def jsTrimList (l : List Char) : List Char :=
  ((l.dropWhile jsIsWs).reverse.dropWhile jsIsWs).reverse

/-- Model of `String.prototype.trim`. -/
def jsTrim (s : String) : String := ⟨jsTrimList s.data⟩

/-- Model of `String.prototype.toUpperCase` on one character
(ASCII range; room ids are generated from ASCII alphanumerics). -/
def jsCharToUpper (c : Char) : Char :=
  if 0x61 ≤ c.toNat ∧ c.toNat ≤ 0x7A then Char.ofNat (c.toNat - 32) else c

/-- Model of `String.prototype.toUpperCase`. -/
def jsToUpper (s : String) : String := ⟨s.data.map jsCharToUpper⟩

/-- `pat.isPrefixOf data`: model of `String.prototype.startsWith`
(second argument is the pattern). -/
def listStarts : List Char → List Char → Bool
  | _, [] => true
  | [], _ :: _ => false
  | a :: as, b :: bs => a == b && listStarts as bs

/-- Model of `s.startsWith(pat)`. -/
def jsStartsWith (s pat : String) : Bool := listStarts s.data pat.data

/-- Model of `s.slice(n)` (used only after an ASCII-pattern
`startsWith` check, where code units and scalars coincide). -/
def jsSlice (s : String) (n : Nat) : String := ⟨s.data.drop n⟩

/-- UTF-16 code units of one scalar (model of JS string indexing). -/
def utf16Units (c : Char) : List Nat :=
  if c.toNat < 0x10000 then [c.toNat]
  else [0xD800 + (c.toNat - 0x10000) / 0x400, 0xDC00 + (c.toNat - 0x10000) % 0x400]

/-- The sequence of `charCodeAt` values of a JS string. -/
def jsCodeUnits (s : String) : List Nat :=
  s.data.foldr (fun c acc => utf16Units c ++ acc) []

/-! ## UTF-8 codec (`TextEncoder` / `TextDecoder`) -/

/-- UTF-8 bytes of one Unicode scalar. -/
def utf8EncodeChar (c : Char) : List Nat :=
  if c.toNat < 0x80 then [c.toNat]
  else if c.toNat < 0x800 then
    [0xC0 + c.toNat / 64, 0x80 + c.toNat % 64]
  else if c.toNat < 0x10000 then
    [0xE0 + c.toNat / 4096, 0x80 + c.toNat / 64 % 64, 0x80 + c.toNat % 64]
  else
    [0xF0 + c.toNat / 262144, 0x80 + c.toNat / 4096 % 64,
     0x80 + c.toNat / 64 % 64, 0x80 + c.toNat % 64]

/-- Model of `TextEncoder.encode` (the `encodeUtf8` helper of the store). -/
def encodeUtf8 (s : String) : List Nat :=
  s.data.foldr (fun c acc => utf8EncodeChar c ++ acc) []

/-- U+FFFD, emitted by `TextDecoder` for malformed input. -/
def replChar : Char := Char.ofNat 0xFFFD

/-- WHATWG UTF-8 decoder, handling of a byte in the initial state
(bytes needed = 0): emitted output together with the successor state
(bytes needed, accumulated code point, lower and upper boundary for the
next continuation byte). -/
structure Utf8Lead where
  out : List Char
  needed : Nat
  cp : Nat
  lo : Nat
  hi : Nat

/-- Classify one lead-position byte per the WHATWG UTF-8 decode
algorithm. -/
def utf8Lead (b : Nat) : Utf8Lead :=
  if b < 0x80 then ⟨[Char.ofNat b], 0, 0, 0x80, 0xBF⟩
  else if b < 0xC2 then ⟨[replChar], 0, 0, 0x80, 0xBF⟩
  else if b < 0xE0 then ⟨[], 1, b - 0xC0, 0x80, 0xBF⟩
  else if b < 0xF0 then
    ⟨[], 2, b - 0xE0, if b = 0xE0 then 0xA0 else 0x80,
      if b = 0xED then 0x9F else 0xBF⟩
  else if b < 0xF5 then
    ⟨[], 3, b - 0xF0, if b = 0xF0 then 0x90 else 0x80,
      if b = 0xF4 then 0x8F else 0xBF⟩
  else ⟨[replChar], 0, 0, 0x80, 0xBF⟩

/-- WHATWG UTF-8 decoder loop (never fails; substitutes U+FFFD).  An
out-of-range continuation byte emits U+FFFD and is reprocessed as a
lead byte, and a truncated sequence at end of stream emits U+FFFD, as
the WHATWG algorithm prescribes. -/
def utf8Run (needed cp lo hi : Nat) : List Nat → List Char
  | [] => if needed = 0 then [] else [replChar]
  | b :: rest =>
    if needed = 0 then
      let r := utf8Lead b
      r.out ++ utf8Run r.needed r.cp r.lo r.hi rest
    else if lo ≤ b ∧ b ≤ hi then
      if needed = 1 then
        Char.ofNat (cp * 64 + (b - 0x80)) :: utf8Run 0 0 0x80 0xBF rest
      else
        utf8Run (needed - 1) (cp * 64 + (b - 0x80)) 0x80 0xBF rest
    else
      let r := utf8Lead b
      (replChar :: r.out) ++ utf8Run r.needed r.cp r.lo r.hi rest

/-- Full UTF-8 decode from the initial state. -/
def utf8Decode (bytes : List Nat) : List Char := utf8Run 0 0 0x80 0xBF bytes

/-- Model of `TextDecoder.decode` (the `decodeUtf8` helper of the store). -/
def decodeUtf8 (bytes : List Nat) : String := ⟨utf8Decode bytes⟩

theorem utf8EncodeChar_lt_256 (c : Char) : ∀ b ∈ utf8EncodeChar c, b < 256 := by
  have hval : c.toNat < 0xD800 ∨ (0xE000 ≤ c.toNat ∧ c.toNat < 0x110000) := c.valid
  intro b hb
  unfold utf8EncodeChar at hb
  split at hb
  · simp only [List.mem_singleton] at hb; omega
  · split at hb
    · simp only [List.mem_cons, List.not_mem_nil, or_false] at hb
      rcases hb with h | h <;> omega
    · split at hb
      · simp only [List.mem_cons, List.not_mem_nil, or_false] at hb
        rcases hb with h | h | h <;> omega
      · simp only [List.mem_cons, List.not_mem_nil, or_false] at hb
        rcases hb with h | h | h | h <;> omega

theorem utf8Run_encodeChar (c : Char) (cp lo hi : Nat) (rest : List Nat) :
    utf8Run 0 cp lo hi (utf8EncodeChar c ++ rest) = c :: utf8Run 0 0 0x80 0xBF rest := by
  have hval : c.toNat < 0xD800 ∨ (0xE000 ≤ c.toNat ∧ c.toNat < 0x110000) := c.valid
  by_cases h1 : c.toNat < 0x80
  · have he : utf8EncodeChar c = [c.toNat] := by unfold utf8EncodeChar; rw [if_pos h1]
    have hlead : utf8Lead c.toNat = ⟨[Char.ofNat c.toNat], 0, 0, 0x80, 0xBF⟩ := by
      unfold utf8Lead; rw [if_pos h1]
    rw [he, List.cons_append, List.nil_append, utf8Run, if_pos rfl]
    simp only [hlead, List.cons_append, List.nil_append, Char.ofNat_toNat]
  · by_cases h2 : c.toNat < 0x800
    · have he : utf8EncodeChar c = [0xC0 + c.toNat / 64, 0x80 + c.toNat % 64] := by
        unfold utf8EncodeChar; rw [if_neg h1, if_pos h2]
      have hlead : utf8Lead (0xC0 + c.toNat / 64) =
          ⟨[], 1, 0xC0 + c.toNat / 64 - 0xC0, 0x80, 0xBF⟩ := by
        unfold utf8Lead
        rw [if_neg (by omega), if_neg (by omega), if_pos (by omega)]
      rw [he]
      simp only [List.cons_append, List.nil_append]
      rw [utf8Run, if_pos rfl]
      simp only [hlead, List.nil_append]
      rw [utf8Run, if_neg (by omega),
        if_pos (by omega : 0x80 ≤ 0x80 + c.toNat % 64 ∧ 0x80 + c.toNat % 64 ≤ 0xBF),
        if_pos rfl]
      have harith : (0xC0 + c.toNat / 64 - 0xC0) * 64 + (0x80 + c.toNat % 64 - 0x80)
          = c.toNat := by omega
      rw [harith, Char.ofNat_toNat]
    · by_cases h3 : c.toNat < 0x10000
      · have he : utf8EncodeChar c =
            [0xE0 + c.toNat / 4096, 0x80 + c.toNat / 64 % 64, 0x80 + c.toNat % 64] := by
          unfold utf8EncodeChar; rw [if_neg h1, if_neg h2, if_pos h3]
        have hlead : utf8Lead (0xE0 + c.toNat / 4096) =
            ⟨[], 2, 0xE0 + c.toNat / 4096 - 0xE0,
              if 0xE0 + c.toNat / 4096 = 0xE0 then 0xA0 else 0x80,
              if 0xE0 + c.toNat / 4096 = 0xED then 0x9F else 0xBF⟩ := by
          unfold utf8Lead
          rw [if_neg (by omega), if_neg (by omega), if_neg (by omega), if_pos (by omega)]
        have hcont : (if 0xE0 + c.toNat / 4096 = 0xE0 then 0xA0 else 0x80) ≤
            0x80 + c.toNat / 64 % 64 ∧ 0x80 + c.toNat / 64 % 64 ≤
            (if 0xE0 + c.toNat / 4096 = 0xED then 0x9F else 0xBF) := by
          constructor
          · split <;> omega
          · split <;> omega
        rw [he]
        simp only [List.cons_append, List.nil_append]
        rw [utf8Run, if_pos rfl]
        simp only [hlead, List.nil_append]
        rw [utf8Run, if_neg (by omega), if_pos hcont, if_neg (by omega)]
        rw [utf8Run, if_neg (by omega),
          if_pos (by omega : 0x80 ≤ 0x80 + c.toNat % 64 ∧ 0x80 + c.toNat % 64 ≤ 0xBF),
          if_pos rfl]
        have harith : ((0xE0 + c.toNat / 4096 - 0xE0) * 64 +
            (0x80 + c.toNat / 64 % 64 - 0x80)) * 64 +
            (0x80 + c.toNat % 64 - 0x80) = c.toNat := by omega
        rw [harith, Char.ofNat_toNat]
      · have he : utf8EncodeChar c =
            [0xF0 + c.toNat / 262144, 0x80 + c.toNat / 4096 % 64,
             0x80 + c.toNat / 64 % 64, 0x80 + c.toNat % 64] := by
          unfold utf8EncodeChar; rw [if_neg h1, if_neg h2, if_neg h3]
        have hlead : utf8Lead (0xF0 + c.toNat / 262144) =
            ⟨[], 3, 0xF0 + c.toNat / 262144 - 0xF0,
              if 0xF0 + c.toNat / 262144 = 0xF0 then 0x90 else 0x80,
              if 0xF0 + c.toNat / 262144 = 0xF4 then 0x8F else 0xBF⟩ := by
          unfold utf8Lead
          rw [if_neg (by omega), if_neg (by omega), if_neg (by omega),
            if_neg (by omega), if_pos (by omega)]
        have hcont : (if 0xF0 + c.toNat / 262144 = 0xF0 then 0x90 else 0x80) ≤
            0x80 + c.toNat / 4096 % 64 ∧ 0x80 + c.toNat / 4096 % 64 ≤
            (if 0xF0 + c.toNat / 262144 = 0xF4 then 0x8F else 0xBF) := by
          constructor
          · split <;> omega
          · split <;> omega
        rw [he]
        simp only [List.cons_append, List.nil_append]
        rw [utf8Run, if_pos rfl]
        simp only [hlead, List.nil_append]
        rw [utf8Run, if_neg (by omega), if_pos hcont, if_neg (by omega)]
        rw [utf8Run, if_neg (by omega),
          if_pos (by omega : 0x80 ≤ 0x80 + c.toNat / 64 % 64 ∧
            0x80 + c.toNat / 64 % 64 ≤ 0xBF), if_neg (by omega)]
        rw [utf8Run, if_neg (by omega),
          if_pos (by omega : 0x80 ≤ 0x80 + c.toNat % 64 ∧ 0x80 + c.toNat % 64 ≤ 0xBF),
          if_pos rfl]
        have harith : (((0xF0 + c.toNat / 262144 - 0xF0) * 64 +
            (0x80 + c.toNat / 4096 % 64 - 0x80)) * 64 +
            (0x80 + c.toNat / 64 % 64 - 0x80)) * 64 +
            (0x80 + c.toNat % 64 - 0x80) = c.toNat := by omega
        rw [harith, Char.ofNat_toNat]

theorem utf8Decode_encode_data (l : List Char) :
    utf8Decode (l.foldr (fun c acc => utf8EncodeChar c ++ acc) []) = l := by
  unfold utf8Decode
  induction l with
  | nil => rfl
  | cons c l ih =>
    simp only [List.foldr_cons]
    rw [utf8Run_encodeChar, ih]

theorem decodeUtf8_encodeUtf8 (s : String) : decodeUtf8 (encodeUtf8 s) = s := by
  unfold decodeUtf8 encodeUtf8
  rw [utf8Decode_encode_data]

/-! ## Base64 codec (`btoa` / `atob`) -/

/-- The base64 alphabet. -/
def b64Alphabet : List Char :=
  "ABCDEFGHIJKLMNOPQRSTUVWXYZabcdefghijklmnopqrstuvwxyz0123456789+/".data

/-- Digit of a sextet. -/
def b64Char (n : Nat) : Char := b64Alphabet.getD n 'A'

/-- The alphabet characters of the standard base64 encoding of a byte
sequence (padding handled separately by `b64Pad`). -/
def b64Chars : List Nat → List Char
  | b0 :: b1 :: b2 :: rest =>
    b64Char (b0 / 4) :: b64Char (b0 % 4 * 16 + b1 / 16) ::
    b64Char (b1 % 16 * 4 + b2 / 64) :: b64Char (b2 % 64) :: b64Chars rest
  | [b0, b1] => [b64Char (b0 / 4), b64Char (b0 % 4 * 16 + b1 / 16), b64Char (b1 % 16 * 4)]
  | [b0] => [b64Char (b0 / 4), b64Char (b0 % 4 * 16)]
  | [] => []

/-- Padding of the standard base64 encoding of `len` bytes. -/
def b64Pad (len : Nat) : List Char :=
  match len % 3 with
  | 0 => []
  | 1 => ['=', '=']
  | _ => ['=']

/-- Model of `btoa` applied to the binary string of a byte sequence
(the `toBase64` helper of the store). -/
def toBase64 (bytes : List Nat) : String := ⟨b64Chars bytes ++ b64Pad bytes.length⟩

/-- ASCII whitespace, removed by the WHATWG forgiving-base64 decode. -/
def isAsciiWs (c : Char) : Bool :=
  c.toNat == 0x9 || c.toNat == 0xA || c.toNat == 0xC || c.toNat == 0xD || c.toNat == 0x20

/-- Index of a character in the base64 alphabet. -/
def b64IndexAux : List Char → Nat → Char → Option Nat
  | [], _, _ => none
  | a :: rest, i, c => if a == c then some i else b64IndexAux rest (i + 1) c

/-- Index of a character in the base64 alphabet (`none` if absent). -/
def b64Index (c : Char) : Option Nat := b64IndexAux b64Alphabet 0 c

/-- Look up every character; fails on the first character outside the
alphabet (this is where `atob` throws). -/
def b64Lookup : List Char → Option (List Nat)
  | [] => some []
  | c :: cs =>
    match b64Index c, b64Lookup cs with
    | some v, some vs => some (v :: vs)
    | _, _ => none

/-- Reassemble bytes from sextets; a trailing group of 2 or 3 sextets
yields 1 or 2 bytes, surplus low bits discarded (forgiving decode). -/
def b64SextetsToBytes : List Nat → List Nat
  | s0 :: s1 :: s2 :: s3 :: rest =>
    (s0 * 4 + s1 / 16) :: (s1 % 16 * 16 + s2 / 4) :: (s2 % 4 * 64 + s3) ::
      b64SextetsToBytes rest
  | [s0, s1] => [s0 * 4 + s1 / 16]
  | [s0, s1, s2] => [s0 * 4 + s1 / 16, s1 % 16 * 16 + s2 / 4]
  | _ => []

/-- Remove one or two trailing `=` characters (forgiving decode, step
applied when the cleaned length is a multiple of four). -/
def b64StripPad (l : List Char) : List Char :=
  match l.reverse with
  | c1 :: c2 :: r =>
    if c1 = '=' then (if c2 = '=' then r.reverse else (c2 :: r).reverse) else l
  | [c1] => if c1 = '=' then [] else l
  | [] => l

/-- Model of `atob` (WHATWG forgiving-base64 decode; `none` models the
thrown `InvalidCharacterError`), the `fromBase64` helper of the store. -/
def fromBase64 (s : String) : Option (List Nat) :=
  let cleaned := s.data.filter (fun c => !(isAsciiWs c))
  let body := if cleaned.length % 4 = 0 then b64StripPad cleaned else cleaned
  if body.length % 4 = 1 then none
  else (b64Lookup body).map b64SextetsToBytes

theorem b64Index_b64Char : ∀ n, n < 64 → b64Index (b64Char n) = some n := by decide

theorem b64Char_not_ws : ∀ n, n < 64 → isAsciiWs (b64Char n) = false := by decide

theorem b64Char_ne_eq : ∀ n, n < 64 → b64Char n ≠ '=' := by decide

theorem mem_b64Chars (bs : List Nat) (h : ∀ b ∈ bs, b < 256) :
    ∀ c ∈ b64Chars bs, ∃ n, n < 64 ∧ c = b64Char n := by
  induction bs using b64Chars.induct with
  | case1 b0 b1 b2 rest ih =>
    intro c hc
    have h0 := h b0 (by simp)
    have h1 := h b1 (by simp)
    have h2 := h b2 (by simp)
    simp only [b64Chars, List.mem_cons] at hc
    rcases hc with rfl | rfl | rfl | rfl | hc
    · exact ⟨b0 / 4, by omega, rfl⟩
    · exact ⟨b0 % 4 * 16 + b1 / 16, by omega, rfl⟩
    · exact ⟨b1 % 16 * 4 + b2 / 64, by omega, rfl⟩
    · exact ⟨b2 % 64, by omega, rfl⟩
    · exact ih (fun b hb => h b (by simp [hb])) c hc
  | case2 b0 b1 =>
    intro c hc
    have h0 := h b0 (by simp)
    have h1 := h b1 (by simp)
    simp only [b64Chars, List.mem_cons, List.not_mem_nil, or_false] at hc
    rcases hc with rfl | rfl | rfl
    · exact ⟨b0 / 4, by omega, rfl⟩
    · exact ⟨b0 % 4 * 16 + b1 / 16, by omega, rfl⟩
    · exact ⟨b1 % 16 * 4, by omega, rfl⟩
  | case3 b0 =>
    intro c hc
    have h0 := h b0 (by simp)
    simp only [b64Chars, List.mem_cons, List.not_mem_nil, or_false] at hc
    rcases hc with rfl | rfl
    · exact ⟨b0 / 4, by omega, rfl⟩
    · exact ⟨b0 % 4 * 16, by omega, rfl⟩
  | case4 =>
    intro c hc
    simp [b64Chars] at hc

theorem b64Chars_no_pad (bs : List Nat) (h : ∀ b ∈ bs, b < 256) :
    '=' ∉ b64Chars bs := by
  intro hmem
  obtain ⟨n, hn, hcn⟩ := mem_b64Chars bs h '=' hmem
  exact b64Char_ne_eq n hn hcn.symm

theorem b64Chars_length (bs : List Nat) :
    (b64Chars bs).length = bs.length / 3 * 4 + bs.length % 3 + min (bs.length % 3) 1 := by
  induction bs using b64Chars.induct with
  | case1 b0 b1 b2 rest ih => simp only [b64Chars, List.length_cons, ih]; omega
  | case2 b0 b1 => simp [b64Chars]
  | case3 b0 => simp [b64Chars]
  | case4 => simp [b64Chars]

theorem b64Lookup_chars (bs : List Nat) (h : ∀ b ∈ bs, b < 256) :
    (b64Lookup (b64Chars bs)).map b64SextetsToBytes = some bs := by
  induction bs using b64Chars.induct with
  | case1 b0 b1 b2 rest ih =>
    have h0 := h b0 (by simp)
    have h1 := h b1 (by simp)
    have h2 := h b2 (by simp)
    obtain ⟨l, hl, hfl⟩ := Option.map_eq_some'.mp (ih (fun b hb => h b (by simp [hb])))
    simp only [b64Chars, b64Lookup, b64Index_b64Char _ (by omega : b0 / 4 < 64),
      b64Index_b64Char _ (by omega : b0 % 4 * 16 + b1 / 16 < 64),
      b64Index_b64Char _ (by omega : b1 % 16 * 4 + b2 / 64 < 64),
      b64Index_b64Char _ (by omega : b2 % 64 < 64), hl]
    simp only [Option.map_some', Option.some.injEq, b64SextetsToBytes, hfl,
      List.cons.injEq]
    refine ⟨by omega, by omega, by omega, trivial⟩
  | case2 b0 b1 =>
    have h0 := h b0 (by simp)
    have h1 := h b1 (by simp)
    simp only [b64Chars, b64Lookup, b64Index_b64Char _ (by omega : b0 / 4 < 64),
      b64Index_b64Char _ (by omega : b0 % 4 * 16 + b1 / 16 < 64),
      b64Index_b64Char _ (by omega : b1 % 16 * 4 < 64)]
    simp only [Option.map_some', Option.some.injEq, b64SextetsToBytes, List.cons.injEq]
    refine ⟨by omega, by omega, trivial⟩
  | case3 b0 =>
    have h0 := h b0 (by simp)
    simp only [b64Chars, b64Lookup, b64Index_b64Char _ (by omega : b0 / 4 < 64),
      b64Index_b64Char _ (by omega : b0 % 4 * 16 < 64)]
    simp only [Option.map_some', Option.some.injEq, b64SextetsToBytes, List.cons.injEq]
    refine ⟨by omega, trivial⟩
  | case4 => rfl

theorem b64StripPad_two (l : List Char) : b64StripPad (l ++ ['=', '=']) = l := by
  unfold b64StripPad
  rw [List.reverse_append]
  simp [List.reverse_reverse]

theorem b64StripPad_one (l : List Char) (h : '=' ∉ l) : b64StripPad (l ++ ['=']) = l := by
  rcases List.eq_nil_or_concat l with rfl | ⟨l', a, rfl⟩
  · rfl
  · have ha : a ≠ '=' := by
      intro hh
      exact h (by simp [hh, List.concat_eq_append])
    unfold b64StripPad
    rw [List.concat_eq_append, List.append_assoc, List.reverse_append]
    simp only [List.reverse_cons, List.reverse_nil, List.nil_append, List.cons_append,
      List.singleton_append]
    simp [ha, List.reverse_reverse]

theorem b64StripPad_nopad (l : List Char) (h : '=' ∉ l) : b64StripPad l = l := by
  unfold b64StripPad
  rcases hrev : l.reverse with _ | ⟨c1, rest⟩
  · rfl
  · have hc1 : c1 ≠ '=' := by
      intro hh
      apply h
      rw [← List.reverse_reverse l, hrev, hh]
      simp
    rcases rest with _ | ⟨c2, r⟩
    · show (if c1 = '=' then [] else l) = l
      rw [if_neg hc1]
    · show (if c1 = '=' then (if c2 = '=' then r.reverse else (c2 :: r).reverse) else l) = l
      rw [if_neg hc1]

theorem fromBase64_toBase64 (bs : List Nat) (h : ∀ b ∈ bs, b < 256) :
    fromBase64 (toBase64 bs) = some bs := by
  simp only [fromBase64, toBase64]
  have hfilter : (b64Chars bs ++ b64Pad bs.length).filter (fun c => !(isAsciiWs c))
      = b64Chars bs ++ b64Pad bs.length := by
    apply List.filter_eq_self.mpr
    intro a ha
    rcases List.mem_append.mp ha with ha | ha
    · obtain ⟨n, hn, rfl⟩ := mem_b64Chars bs h a ha
      simp [b64Char_not_ws n hn]
    · have : a = '=' := by
        unfold b64Pad at ha
        rcases hmod : bs.length % 3 with _ | _ | k
        · rw [hmod] at ha; simp at ha
        · rw [hmod] at ha; simp at ha; exact ha
        · rw [hmod] at ha; simp at ha; exact ha
      rw [this]
      decide
  rw [hfilter]
  have hlen := b64Chars_length bs
  have hnopad := b64Chars_no_pad bs h
  rcases hmod : bs.length % 3 with _ | _ | k
  · have hpad : b64Pad bs.length = [] := by unfold b64Pad; rw [hmod]
    rw [hpad, List.append_nil]
    have hbody : (if (b64Chars bs).length % 4 = 0 then b64StripPad (b64Chars bs)
        else b64Chars bs) = b64Chars bs := by
      rw [if_pos (by omega), b64StripPad_nopad _ hnopad]
    rw [hbody, if_neg (by omega)]
    exact b64Lookup_chars bs h
  · have hpad : b64Pad bs.length = ['=', '='] := by unfold b64Pad; rw [hmod]
    rw [hpad]
    have hbody : (if (b64Chars bs ++ ['=', '=']).length % 4 = 0 then
        b64StripPad (b64Chars bs ++ ['=', '=']) else b64Chars bs ++ ['=', '='])
        = b64Chars bs := by
      rw [if_pos (by simp only [List.length_append]; simp; omega), b64StripPad_two]
    rw [hbody, if_neg (by omega)]
    exact b64Lookup_chars bs h
  · have hk : bs.length % 3 = 2 := by omega
    have hpad : b64Pad bs.length = ['='] := by unfold b64Pad; rw [hk]
    rw [hpad]
    have hbody : (if (b64Chars bs ++ ['=']).length % 4 = 0 then
        b64StripPad (b64Chars bs ++ ['=']) else b64Chars bs ++ ['='])
        = b64Chars bs := by
      rw [if_pos (by simp only [List.length_append]; simp; omega), b64StripPad_one _ hnopad]
    rw [hbody, if_neg (by omega)]
    exact b64Lookup_chars bs h

/-! ## Content cipher (`createKeyStream`, `xorBytes`, `encryptContent`,
`decryptContent`) -/

/-- `SECRET_SEED` of the store. -/
def SECRET_SEED : String := "play-chat-secret-seed"

/-- The `enc::v1::` version tag prepended to encrypted payloads. -/
def encTag : String := "enc::v1::"

/-- The sentinel returned when decryption fails. -/
def decryptFailText : String := "[消息解密失败]"

/-- Seeding loop of `createKeyStream`: fold the avalanche mix over the
`charCodeAt` values of `SECRET_SEED + ":" + roomId`, with the non-zero
adjustment.  All 32-bit operations (`>>> 0`, `Math.imul`) are modelled
with explicit `% 2^32`. -/
def seedState (roomId : String) : Nat :=
  let st := (jsCodeUnits (SECRET_SEED ++ ":" ++ roomId)).foldl
    (fun s c =>
      let s1 := (s + c) % 4294967296
      Nat.xor s1 (s1 / 32768) * 0x2c1b3c6d % 4294967296)
    0x6d2b79f5
  if st = 0 then 0x6d2b79f5 else st

/-- One xorshift step of the keystream closure (`<< 13`, `>>> 17`,
`<< 5`, each result coerced to a 32-bit unsigned integer). -/
def nextState (s : Nat) : Nat :=
  let s1 := Nat.xor s (s * 8192 % 4294967296)
  let s2 := Nat.xor s1 (s1 / 131072)
  Nat.xor s2 (s2 * 32 % 4294967296)

/-- `xorBytes` loop: advance the keystream state for every byte and XOR
with its low 8 bits (`state & 0xff`); the store into the `Uint8Array`
truncates to 8 bits. -/
def xorWithState : Nat → List Nat → List Nat
  | _, [] => []
  | s, b :: rest =>
    (b ^^^ nextState s % 256) % 256 :: xorWithState (nextState s) rest

/-- Model of the store's `xorBytes`. -/
def xorBytes (roomId : String) (src : List Nat) : List Nat :=
  xorWithState (seedState roomId) src

/-- Model of the store's `encryptContent`. -/
def encryptContent (roomId content : String) : String :=
  if content.data.length = 0 then content
  else encTag ++ toBase64 (xorBytes roomId (encodeUtf8 content))

/-- Model of the store's `decryptContent`: untagged payloads are
returned unchanged; a `fromBase64` failure (the only throwing step; the
decoder substitutes U+FFFD instead of failing) is caught and replaced
by the sentinel text. -/
def decryptContent (roomId payload : String) : String :=
  if !(jsStartsWith payload encTag) then payload
  else
    match fromBase64 (jsSlice payload encTag.data.length) with
    | none => decryptFailText
    | some bytes => decodeUtf8 (xorBytes roomId bytes)

theorem xorWithState_lt_256 (s : Nat) (l : List Nat) :
    ∀ b ∈ xorWithState s l, b < 256 := by
  induction l generalizing s with
  | nil => intro b hb; simp [xorWithState] at hb
  | cons a rest ih =>
    intro b hb
    simp only [xorWithState, List.mem_cons] at hb
    rcases hb with rfl | hb
    · exact Nat.mod_lt _ (by norm_num)
    · exact ih (nextState s) b hb

theorem xorWithState_involution (s : Nat) (l : List Nat) (h : ∀ b ∈ l, b < 256) :
    xorWithState s (xorWithState s l) = l := by
  induction l generalizing s with
  | nil => rfl
  | cons b rest ih =>
    have hb : b < 256 := h b (by simp)
    have hk : nextState s % 256 < 256 := Nat.mod_lt _ (by norm_num)
    simp only [xorWithState, List.cons.injEq]
    constructor
    · have hxor : b ^^^ nextState s % 256 < 256 := by
        have h8 : (256 : Nat) = 2 ^ 8 := by norm_num
        rw [h8] at hb hk ⊢
        exact Nat.xor_lt_two_pow hb hk
      rw [Nat.mod_eq_of_lt hxor, Nat.mod_eq_of_lt (by
        have h8 : (256 : Nat) = 2 ^ 8 := by norm_num
        rw [h8]
        exact Nat.xor_lt_two_pow (by rw [← h8]; exact hxor) (by rw [← h8]; exact hk))]
      rw [Nat.xor_assoc, Nat.xor_self, Nat.xor_zero]
    · exact ih (nextState s) (fun x hx => h x (by simp [hx]))

theorem xorBytes_involution (roomId : String) (l : List Nat) (h : ∀ b ∈ l, b < 256) :
    xorBytes roomId (xorBytes roomId l) = l :=
  xorWithState_involution _ l h

theorem encodeUtf8_lt_256 (s : String) : ∀ b ∈ encodeUtf8 s, b < 256 := by
  unfold encodeUtf8
  induction s.data with
  | nil => intro b hb; simp at hb
  | cons c l ih =>
    intro b hb
    simp only [List.foldr_cons, List.mem_append] at hb
    rcases hb with hb | hb
    · exact utf8EncodeChar_lt_256 c b hb
    · exact ih b hb

theorem listStarts_append (p r : List Char) : listStarts (p ++ r) p = true := by
  induction p with
  | nil => cases r <;> rfl
  | cons a p ih => simp [listStarts, ih]

theorem string_mk_data (s : String) : String.mk s.data = s := by cases s; rfl

theorem encryptContent_append_form (R S : String) (h : ¬ S.data.length = 0) :
    encryptContent R S = encTag ++ toBase64 (xorBytes R (encodeUtf8 S)) := by
  unfold encryptContent
  rw [if_neg h]

/-- **C1** (cipher round trip): for every room id `R` and every string
`S`, decrypting the encryption of `S` under the same room id returns
`S`; and the empty string encrypts to itself (no-op, no tag). -/
theorem c1_cipher_round_trip (R S : String) :
    decryptContent R (encryptContent R S) = S ∧ encryptContent R "" = "" := by
  refine ⟨?_, rfl⟩
  by_cases hS : S.data.length = 0
  · have hSe : S = "" := by
      cases S with
      | mk data =>
        cases data with
        | nil => rfl
        | cons c l => simp at hS
    subst hSe
    show decryptContent R "" = ""
    unfold decryptContent
    rw [if_pos (by decide)]
  · rw [encryptContent_append_form R S hS]
    have hbytes : ∀ b ∈ xorBytes R (encodeUtf8 S), b < 256 :=
      fun b hb => xorWithState_lt_256 _ _ b hb
    have hstart : jsStartsWith (encTag ++ toBase64 (xorBytes R (encodeUtf8 S))) encTag
        = true := by
      unfold jsStartsWith
      rw [String.data_append]
      exact listStarts_append _ _
    have hslice : jsSlice (encTag ++ toBase64 (xorBytes R (encodeUtf8 S)))
        encTag.data.length = toBase64 (xorBytes R (encodeUtf8 S)) := by
      unfold jsSlice
      rw [String.data_append, List.drop_left, string_mk_data]
    unfold decryptContent
    rw [hstart]
    simp only [Bool.not_true, Bool.false_eq_true, if_false]
    rw [hslice, fromBase64_toBase64 _ hbytes]
    show decodeUtf8 (xorBytes R (xorBytes R (encodeUtf8 S))) = S
    rw [xorBytes_involution _ _ (encodeUtf8_lt_256 S), decodeUtf8_encodeUtf8]

/-! ## Signaling endpoint resolution

Two drafts of the store resolve signaling endpoints differently: one
builds a candidate list from the environment, the browser context and a
hard-coded fallback and substitutes the room id for the placeholder in
`resolveSignalingUrls`; the other (`getSignalingEndpoints`) reads only
the single-endpoint environment variable and has no fallback. -/

/-- The hard-coded fallback endpoint template. -/
def FALLBACK_SIGNALING_ENDPOINT : String := "ws://8.152.98.245:23333/signal?room=<id>"

/-- The signaling-related environment variables (`import.meta.env`);
`none` models an unset variable. -/
structure SigEnv where
  endpointsVar : Option String
  endpointVar : Option String
  portVar : Option String

/-- The ambient browser context (`window.location`); `present = false`
models a host without `window`. -/
structure BrowserCtx where
  present : Bool
  protoHttps : Bool
  host : String
  hostname : String

/-- Split on commas (model of `String.prototype.split(',')`). -/
def splitCommaAux : List Char → List Char → List String
  | [], acc => [⟨acc.reverse⟩]
  | c :: rest, acc =>
    if c = ',' then ⟨acc.reverse⟩ :: splitCommaAux rest [] else splitCommaAux rest (c :: acc)

/-- `resolveEnvSignalingEndpoints` of the endpoint-list draft:
`VITE_SIGNALING_ENDPOINTS ?? VITE_SIGNALING_ENDPOINT ?? ''`, split on
commas, trimmed, empties dropped. -/
def resolveEnvSignalingEndpoints (env : SigEnv) : List String :=
  ((splitCommaAux (env.endpointsVar.getD (env.endpointVar.getD "")).data []).map
    jsTrim).filter (fun s => !s.data.isEmpty)

/-- `resolveBrowserSignalingEndpoint`: derive an endpoint template from
the page's own origin. -/
def resolveBrowserSignalingEndpoint (env : SigEnv) (w : BrowserCtx) : Option String :=
  if !w.present then none
  else
    let protocol := if w.protoHttps then "wss" else "ws"
    if w.host.data.contains ':' then
      some (protocol ++ "://" ++ w.host ++ "/signal?room=<id>")
    else
      let fallbackPort := jsTrim (env.portVar.getD "")
      if 0 < fallbackPort.data.length then
        some (protocol ++ "://" ++ w.hostname ++ ":" ++ fallbackPort ++ "/signal?room=<id>")
      else some (protocol ++ "://" ++ w.host ++ "/signal?room=<id>")

/-- First-occurrence deduplication (model of `Array.from(new Set(...))`,
which preserves first-seen insertion order). -/
def dedupFirstAux (seen : List String) : List String → List String
  | [] => []
  | a :: rest =>
    if a ∈ seen then dedupFirstAux seen rest
    else a :: dedupFirstAux (a :: seen) rest

/-- The `SIGNALING_ENDPOINTS` candidate list of the endpoint-list
draft: env candidates, browser candidate, hard-coded fallback; non-empty
strings only; deduplicated keeping first-seen order. -/
def SIGNALING_ENDPOINTS (env : SigEnv) (w : BrowserCtx) : List String :=
  dedupFirstAux []
    ((resolveEnvSignalingEndpoints env ++ (resolveBrowserSignalingEndpoint env w).toList ++
      [FALLBACK_SIGNALING_ENDPOINT]).filter (fun s => !s.data.isEmpty))

/-- Does `pat` occur as a contiguous substring (model of
`String.prototype.includes`)? -/
def subOccurs (pat : List Char) : List Char → Bool
  | [] => listStarts [] pat
  | c :: rest => listStarts (c :: rest) pat || subOccurs pat rest

/-- Replace the first occurrence of `pat` by `rep` (model of
`String.prototype.replace` with a string pattern). -/
def replaceFirstSub (pat rep : List Char) : List Char → List Char
  | [] => []
  | c :: rest =>
    if listStarts (c :: rest) pat then rep ++ (c :: rest).drop pat.length
    else c :: replaceFirstSub pat rep rest

/-- Characters kept verbatim by `encodeURIComponent`. -/
def uriUnreserved (c : Char) : Bool :=
  (65 ≤ c.toNat && c.toNat ≤ 90) || (97 ≤ c.toNat && c.toNat ≤ 122) ||
  (48 ≤ c.toNat && c.toNat ≤ 57) || c.toNat == 45 || c.toNat == 95 ||
  c.toNat == 46 || c.toNat == 33 || c.toNat == 126 || c.toNat == 42 ||
  c.toNat == 39 || c.toNat == 40 || c.toNat == 41

/-- Uppercase hexadecimal digit. -/
def hexDigit (n : Nat) : Char := if n < 10 then Char.ofNat (48 + n) else Char.ofNat (55 + n)

/-- Percent-encoding of one byte. -/
def percentByte (b : Nat) : List Char := ['%', hexDigit (b / 16), hexDigit (b % 16)]

/-- Model of `encodeURIComponent`. -/
def jsEncodeURIComponent (s : String) : String :=
  ⟨s.data.foldr (fun c acc =>
    (if uriUnreserved c then [c]
     else (utf8EncodeChar c).foldr (fun b a2 => percentByte b ++ a2) []) ++ acc) []⟩

/-- `resolveSignalingUrls` of the endpoint-list draft: substitute the
URI-encoded room id for the `<id>` placeholder in every candidate. -/
def resolveSignalingUrls (env : SigEnv) (w : BrowserCtx) (roomId : String) : List String :=
  (SIGNALING_ENDPOINTS env w).map (fun endpoint =>
    if subOccurs "<id>".data endpoint.data then
      ⟨replaceFirstSub "<id>".data (jsEncodeURIComponent roomId).data endpoint.data⟩
    else endpoint)

/-- `getSignalingEndpoints` of the commented draft: reads only
`VITE_SIGNALING_ENDPOINT` (truthiness check, so the empty string also
fails) and appends `?room=` plus the raw room id; no fallback. -/
def getSignalingEndpoints (endpointVar : Option String) (roomId : String) : List String :=
  match endpointVar with
  | some e => if e.data.isEmpty then [] else [e ++ "?room=" ++ roomId]
  | none => []

theorem mem_dedupFirstAux (x : String) :
    ∀ (l : List String) (seen : List String), x ∈ l → x ∉ seen →
      x ∈ dedupFirstAux seen l := by
  intro l
  induction l with
  | nil => intro seen h _; simp at h
  | cons a rest ih =>
    intro seen hmem hseen
    unfold dedupFirstAux
    by_cases ha : a ∈ seen
    · rw [if_pos ha]
      rcases List.mem_cons.mp hmem with rfl | hx
      · exact absurd ha hseen
      · exact ih seen hx hseen
    · rw [if_neg ha]
      rcases List.mem_cons.mp hmem with rfl | hx
      · exact List.mem_cons_self _ _
      · by_cases hxa : x = a
        · subst hxa; exact List.mem_cons_self _ _
        · exact List.mem_cons_of_mem _ (ih (a :: seen) hx (by
            intro hc
            rcases List.mem_cons.mp hc with h | h
            · exact hxa h
            · exact hseen h))

theorem subOccurs_append_pat (pat : List Char) :
    ∀ pre : List Char, subOccurs pat (pre ++ pat) = true := by
  intro pre
  induction pre with
  | nil =>
    cases hp : pat with
    | nil => rfl
    | cons c rest =>
      unfold subOccurs
      rw [List.nil_append, ← hp]
      have : listStarts pat pat = true := by
        have := listStarts_append pat []
        rwa [List.append_nil] at this
      rw [hp] at this ⊢
      simp [this]
  | cons c pre ih =>
    unfold subOccurs
    simp [ih]

theorem replaceFirstSub_append_pat (c0 : Char) (pat' rep : List Char) :
    ∀ pre : List Char, c0 ∉ pre →
      replaceFirstSub (c0 :: pat') rep (pre ++ c0 :: pat') = pre ++ rep := by
  intro pre
  induction pre with
  | nil =>
    intro _
    rw [List.nil_append]
    unfold replaceFirstSub
    have hs : listStarts (c0 :: pat') (c0 :: pat') = true := by
      have := listStarts_append (c0 :: pat') []
      rwa [List.append_nil] at this
    rw [if_pos hs, List.drop_length, List.append_nil, List.nil_append]
  | cons c pre ih =>
    intro hnot
    have hc : c ≠ c0 := fun h => hnot (by simp [h])
    rw [List.cons_append]
    unfold replaceFirstSub
    rw [if_neg (by
      unfold listStarts
      simp [hc]), ih (fun h => hnot (by simp [h]))]
    rfl

/-- **C3** (counterexample): with no configuration set, the
`getSignalingEndpoints` draft returns the empty list for room `ROOM1`;
in particular the result is not a non-empty list containing the
built-in default endpoint with the room id substituted. -/
theorem c3_counterexample :
    ¬ (getSignalingEndpoints none "ROOM1" ≠ [] ∧
       "ws://8.152.98.245:23333/signal?room=ROOM1" ∈ getSignalingEndpoints none "ROOM1") := by
  decide

/-- **C3** (amended): in the draft that derives `SIGNALING_ENDPOINTS`
from environment, browser context and the built-in fallback, with no
environment endpoint variables set, `resolveSignalingUrls` returns a
non-empty list containing the built-in default endpoint with the
URI-encoded room id substituted for the `<id>` placeholder, whatever
the browser context; the `getSignalingEndpoints` draft instead returns
the empty list when `VITE_SIGNALING_ENDPOINT` is unset. -/
theorem c3_endpoint_fallback (roomId : String) (w : BrowserCtx) :
    resolveSignalingUrls ⟨none, none, none⟩ w roomId ≠ [] ∧
    ("ws://8.152.98.245:23333/signal?room=" ++ jsEncodeURIComponent roomId) ∈
      resolveSignalingUrls ⟨none, none, none⟩ w roomId ∧
    getSignalingEndpoints none roomId = [] := by
  have hfb : FALLBACK_SIGNALING_ENDPOINT ∈ SIGNALING_ENDPOINTS ⟨none, none, none⟩ w := by
    unfold SIGNALING_ENDPOINTS
    apply mem_dedupFirstAux
    · apply List.mem_filter.mpr
      refine ⟨?_, by decide⟩
      simp
    · simp
  have hdecomp : FALLBACK_SIGNALING_ENDPOINT.data =
      "ws://8.152.98.245:23333/signal?room=".data ++ '<' :: "id>".data := by decide
  have himage : (if subOccurs "<id>".data FALLBACK_SIGNALING_ENDPOINT.data then
        (⟨replaceFirstSub "<id>".data (jsEncodeURIComponent roomId).data
          FALLBACK_SIGNALING_ENDPOINT.data⟩ : String)
      else FALLBACK_SIGNALING_ENDPOINT) =
      "ws://8.152.98.245:23333/signal?room=" ++ jsEncodeURIComponent roomId := by
    rw [if_pos (by decide), hdecomp]
    have hpat : ("<id>".data : List Char) = '<' :: "id>".data := by decide
    rw [hpat, replaceFirstSub_append_pat _ _ _ _ (by decide)]
    cases henc : jsEncodeURIComponent roomId
    rfl
  have hmem : ("ws://8.152.98.245:23333/signal?room=" ++ jsEncodeURIComponent roomId) ∈
      resolveSignalingUrls ⟨none, none, none⟩ w roomId := by
    unfold resolveSignalingUrls
    exact List.mem_map.mpr ⟨FALLBACK_SIGNALING_ENDPOINT, hfb, himage⟩
  exact ⟨List.ne_nil_of_mem hmem, hmem, rfl⟩

/-! ## Store data model -/

/-- Default visitor nickname. -/
def DEFAULT_USERNAME : String := "匿名旅人"

/-- `roomId.trim().toUpperCase()`. -/
def normalizeRoomId (roomId : String) : String := jsToUpper (jsTrim roomId)

inductive MessageType
  | chat
  | system
deriving DecidableEq, Repr

/-- A sanitized `RoomMessage` (timestamps are JS epoch-millisecond
numbers, modelled as integers). -/
structure RoomMessage where
  id : String
  type : MessageType
  userId : String
  username : String
  content : String
  timestamp : Int
  encrypted : Bool
deriving DecidableEq, Repr

structure RoomParticipant where
  userId : String
  username : String
  joinedAt : Int
deriving DecidableEq, Repr

/-- A raw replicated-log entry, as `sanitizeMessage` sees it
(`Partial<RoomMessage>` from an untrusted peer): each field is `none`
when absent or not of the primitive type the corresponding `typeof`
check expects.  A whole payload that is not an object is modelled as
`none` at the use sites. -/
structure RawFields where
  rawId : Option String
  rawType : Option String
  rawUserId : Option String
  rawUsername : Option String
  rawContent : Option String
  rawTimestamp : Option Int
  rawEncrypted : Option Bool
deriving DecidableEq, Repr

/-- Model of `sanitizeMessage`; `freshId` and `now` are the values
`generateMessageId()` and `Date.now()` produce when the raw entry lacks
those fields. -/
def sanitizeMessage (roomId : String) (freshId : String) (now : Int) :
    Option RawFields → Option RoomMessage
  | none => none
  | some m =>
    let type := if m.rawType = some "system" then MessageType.system else MessageType.chat
    let rawContent := m.rawContent.getD ""
    let decryptedContent := decryptContent roomId rawContent
    let normalizedContent := jsTrim decryptedContent
    if type = MessageType.chat ∧ normalizedContent.data.length = 0 then none
    else
      some
        { id := match m.rawId with
            | some i => if 0 < (jsTrim i).data.length then i else freshId
            | none => freshId
          type := type
          userId := m.rawUserId.getD "system"
          username := match m.rawUsername with
            | some u => if 0 < (jsTrim u).data.length then u else DEFAULT_USERNAME
            | none => DEFAULT_USERNAME
          content := normalizedContent
          timestamp := m.rawTimestamp.getD now
          encrypted := jsStartsWith rawContent encTag || m.rawEncrypted == some true }

/-- A raw awareness `user` record; a state without a valid nested
`user` object is modelled as `none` at the use sites. -/
structure RawUser where
  uid : Option String
  uname : Option String
  ujoinedAt : Option Int
deriving DecidableEq, Repr

/-- Model of `buildParticipant` (an empty-string id is falsy and
rejected); `nowJ` models `Date.now()` for a missing join time. -/
def buildParticipant (nowJ : Int) : Option RawUser → Option RoomParticipant
  | none => none
  | some u =>
    match u.uid with
    | none => none
    | some i =>
      if i.data.isEmpty then none
      else
        some
          { userId := i
            username := match u.uname with
              | some n => if 0 < (jsTrim n).data.length then jsTrim n else DEFAULT_USERNAME
              | none => DEFAULT_USERNAME
            joinedAt := u.ujoinedAt.getD nowJ }

structure User where
  id : String
  username : String

/-- The awareness `user` field written by `setLocalAwareness` (the
name trimmed, or the default when blank). -/
def setLocalAwarenessState (user : User) (joinedAt : Int) : RawUser :=
  { uid := some user.id
    uname := some (if 0 < (jsTrim user.username).data.length then jsTrim user.username
      else DEFAULT_USERNAME)
    ujoinedAt := some joinedAt }

/-- Stable ascending insertion by timestamp; `Array.prototype.sort`
with comparator `a.timestamp - b.timestamp` is (since ES2019) a stable
ascending sort. -/
def insertByTs (m : RoomMessage) : List RoomMessage → List RoomMessage
  | [] => [m]
  | x :: xs => if x.timestamp < m.timestamp then x :: insertByTs m xs else m :: x :: xs

/-- Stable ascending sort by timestamp. -/
def sortByTimestamp (l : List RoomMessage) : List RoomMessage := l.foldr insertByTs []

/-- Stable ascending insertion by join time. -/
def insertByJoined (p : RoomParticipant) : List RoomParticipant → List RoomParticipant
  | [] => [p]
  | x :: xs => if x.joinedAt < p.joinedAt then x :: insertByJoined p xs else p :: x :: xs

/-- Stable ascending sort by join time (comparator `a.joinedAt -
b.joinedAt`). -/
def sortByJoined (l : List RoomParticipant) : List RoomParticipant := l.foldr insertByJoined []

/-- Sanitize every log entry in order, dropping rejected ones; the
index-dependent oracle `fresh` supplies `generateMessageId()` and
`Date.now()` defaults per entry. -/
def sanitizeLog (roomId : String) (fresh : Nat → String × Int) :
    Nat → List (Option RawFields) → List RoomMessage
  | _, [] => []
  | i, item :: rest =>
    match sanitizeMessage roomId (fresh i).1 (fresh i).2 item with
    | some m => m :: sanitizeLog roomId fresh (i + 1) rest
    | none => sanitizeLog roomId fresh (i + 1) rest

/-- Body of the `updateMessages` observer: sanitize the whole log,
filter out `null`s, sort ascending by timestamp. -/
def updateMessagesView (roomId : String) (fresh : Nat → String × Int)
    (log : List (Option RawFields)) : List RoomMessage :=
  sortByTimestamp (sanitizeLog roomId fresh 0 log)

/-- Runtime state of one room session.  The Yjs document, provider and
observers are represented by the replicated log (`yMessages`), the
awareness states (the local one was inserted first, so it leads the
iteration order) and the materialized views. -/
structure RoomSession where
  roomId : String
  yMessages : List (Option RawFields)
  messages : List RoomMessage
  participants : List RoomParticipant
  hasAnnouncedJoin : Bool
  localJoinedAt : Int
  localState : RawUser
  remoteStates : List (Option RawUser)

/-- Body of the `updateParticipants` observer: aggregate every
awareness state in iteration order, drop invalid ones, sort ascending
by join time. -/
def updateParticipantsView (nowJ : Int) (s : RoomSession) : List RoomParticipant :=
  sortByJoined ((some s.localState :: s.remoteStates).filterMap (buildParticipant nowJ))

/-- The Pinia store state: known-room registry and the room-id-keyed
session map (an association list with unique keys, modelling a JS
object). -/
structure StoreState where
  knownRooms : List String
  sessions : List (String × RoomSession)
  initialized : Bool

/-- `state.sessions[key]`. -/
def lookupSession : List (String × RoomSession) → String → Option RoomSession
  | [], _ => none
  | (k, s) :: rest, key => if k = key then some s else lookupSession rest key

/-- `state.sessions[key] = s` (overwrite or append). -/
def setSession : List (String × RoomSession) → String → RoomSession →
    List (String × RoomSession)
  | [], key, s => [(key, s)]
  | (k, s0) :: rest, key, s =>
    if k = key then (key, s) :: rest else (k, s0) :: setSession rest key s

/-- `delete state.sessions[key]` (keys of a JS object are unique, so
dropping every binding of `key` models the deletion). -/
def removeSession (m : List (String × RoomSession)) (key : String) :
    List (String × RoomSession) :=
  m.filter (fun kv => kv.1 != key)

/-- One entry of the session map after an in-place mutation of the
session stored under `key`. -/
def updateEntry (key : String) (f : RoomSession → RoomSession) :
    String × RoomSession → String × RoomSession
  | (k, s) => if k = key then (k, f s) else (k, s)

/-- In-place mutation of the session stored under `key`. -/
def updateSessionMap (m : List (String × RoomSession)) (key : String)
    (f : RoomSession → RoomSession) : List (String × RoomSession) :=
  m.map (updateEntry key f)

/-- `sessions[key]?.yMessages`: the replicated log of the session at
`key`, when one exists. -/
def sessionLog (st : StoreState) (key : String) : Option (List (Option RawFields)) :=
  (lookupSession st.sessions key).map (fun s => s.yMessages)

/-! ## Store operations

Host-provided nondeterminism is passed explicitly: `stored` is the
string-filtered parse of the known-room cache in local storage,
`msgId`/`now` are `generateMessageId()`/`Date.now()` at a push, and
`fresh` supplies per-entry defaults during a view recomputation. -/

/-- `generateMessageId()` and `Date.now()` for one push, plus the
recompute oracle for the observer that fires on it. -/
structure OpCtx where
  msgId : String
  now : Int
  fresh : Nat → String × Int

/-- Append an entry to the session's replicated log; the `yMessages`
observer fires synchronously and recomputes the materialized messages
view from the whole log. -/
def pushEntry (st : StoreState) (nid : String) (entry : Option RawFields)
    (fresh : Nat → String × Int) : StoreState :=
  { st with
    sessions := updateSessionMap st.sessions nid (fun s =>
      let log := s.yMessages ++ [entry]
      { s with yMessages := log, messages := updateMessagesView nid fresh log }) }

/-- Model of the `ensureLoaded` action. -/
def ensureLoaded (st : StoreState) (stored : List String) : StoreState :=
  if st.initialized then st
  else { st with knownRooms := stored.map normalizeRoomId, initialized := true }

/-- Model of the `markRoomKnown` action (persistence to local storage
is an external side effect with no bearing on store state). -/
def markRoomKnown (st : StoreState) (roomId : String) (stored : List String) : StoreState :=
  let st1 := ensureLoaded st stored
  let nid := normalizeRoomId roomId
  if nid ∈ st1.knownRooms then st1
  else { st1 with knownRooms := st1.knownRooms ++ [nid] }

/-- Model of the `hasRoom` action (returns the updated state, since
`ensureLoaded` can initialize the registry, and the membership answer). -/
def hasRoom (st : StoreState) (roomId : String) (stored : List String) :
    StoreState × Bool :=
  let st1 := ensureLoaded st stored
  let nid := normalizeRoomId roomId
  (st1, decide (nid ∈ st1.knownRooms))

/-- Model of the `getMessages` getter. -/
def getMessages (st : StoreState) (roomId : String) : List RoomMessage :=
  match lookupSession st.sessions (normalizeRoomId roomId) with
  | some s => s.messages
  | none => []

/-- Model of the `getParticipants` getter. -/
def getParticipants (st : StoreState) (roomId : String) : List RoomParticipant :=
  match lookupSession st.sessions (normalizeRoomId roomId) with
  | some s => s.participants
  | none => []

/-- The raw entry `recordSystemMessage` pushes. -/
def sysEntry (nid content msgId : String) (now : Int) : RawFields :=
  { rawId := some msgId
    rawType := some "system"
    rawUserId := some "system"
    rawUsername := some "系统"
    rawContent := some (encryptContent nid content)
    rawTimestamp := some now
    rawEncrypted := some true }

/-- Model of the `recordSystemMessage` action. -/
def recordSystemMessage (st : StoreState) (roomId : String) (content : String)
    (ctx : OpCtx) : StoreState :=
  let normalizedId := normalizeRoomId roomId
  match lookupSession st.sessions normalizedId with
  | none => st
  | some _ =>
    pushEntry st normalizedId (some (sysEntry normalizedId content ctx.msgId ctx.now))
      ctx.fresh

structure SendPayload where
  userId : String
  username : String
  content : String

/-- The raw entry `sendMessage` pushes. -/
def chatEntry (nid : String) (payload : SendPayload) (msgId : String) (now : Int) :
    RawFields :=
  { rawId := some msgId
    rawType := some "chat"
    rawUserId := some payload.userId
    rawUsername := some (if 0 < (jsTrim payload.username).data.length
      then jsTrim payload.username else DEFAULT_USERNAME)
    rawContent := some (encryptContent nid (jsTrim payload.content))
    rawTimestamp := some now
    rawEncrypted := some true }

/-- Model of the `sendMessage` action. -/
def sendMessage (st : StoreState) (roomId : String) (payload : SendPayload)
    (ctx : OpCtx) : StoreState :=
  let normalizedId := normalizeRoomId roomId
  match lookupSession st.sessions normalizedId with
  | none => st
  | some _ =>
    let trimmedContent := jsTrim payload.content
    if trimmedContent.data.length = 0 then st
    else pushEntry st normalizedId (some (chatEntry normalizedId payload ctx.msgId ctx.now))
      ctx.fresh

/-- `setLocalAwareness` on a live session: republish the local
awareness `user` field (preserving the session's join time) and let the
awareness observer recompute the participants view. -/
def setLocalAwarenessOp (st : StoreState) (nid : String) (user : User) (nowP : Int) :
    StoreState :=
  { st with
    sessions := updateSessionMap st.sessions nid (fun s =>
      let s1 := { s with localState := setLocalAwarenessState user s.localJoinedAt }
      { s1 with participants := updateParticipantsView nowP s1 }) }

/-- Model of the `updateLocalUsername` action. -/
def updateLocalUsername (st : StoreState) (roomId : String) (user : User)
    (nowP : Int) : StoreState :=
  let normalizedId := normalizeRoomId roomId
  match lookupSession st.sessions normalizedId with
  | none => st
  | some _ => setLocalAwarenessOp st normalizedId user nowP

/-- Model of `initializeSession`: fresh document and provider, empty
log, initial messages recompute, local presence published, initial
participants recompute. -/
def initializeSession (nid : String) (user : User) (joinNow : Int)
    (fresh : Nat → String × Int) (nowP : Int) : RoomSession :=
  let base : RoomSession :=
    { roomId := nid
      yMessages := []
      messages := []
      participants := []
      hasAnnouncedJoin := false
      localJoinedAt := joinNow
      localState := setLocalAwarenessState user joinNow
      remoteStates := [] }
  let s1 := { base with messages := updateMessagesView nid fresh [] }
  { s1 with participants := updateParticipantsView nowP s1 }

/-- The host-provided values one `connect` call consumes. -/
structure ConnectCtx where
  joinNow : Int
  nowP : Int
  msgId : String
  sysNow : Int
  fresh : Nat → String × Int

/-- `user.username.trim() || DEFAULT_USERNAME` (the empty string is
falsy). -/
def displayName (user : User) : String :=
  if 0 < (jsTrim user.username).data.length then jsTrim user.username else DEFAULT_USERNAME

/-- The "user joined" announcement text. -/
def welcomeText (user : User) : String := "欢迎「" ++ displayName user ++ "」加入"

/-- The "user left" announcement text. -/
def leaveText (user : User) : String := "「" ++ displayName user ++ "」已离开"

/-- The trailing `if (!session.hasAnnouncedJoin)` block of `connect`:
record the welcome system message and set the flag (in that order). -/
def announceJoin (st2 : StoreState) (nid : String) (user : User) (msgId : String)
    (sysNow : Int) (fresh : Nat → String × Int) : StoreState :=
  match lookupSession st2.sessions nid with
  | none => st2
  | some s =>
    if s.hasAnnouncedJoin then st2
    else
      let st3 := recordSystemMessage st2 nid (welcomeText user) ⟨msgId, sysNow, fresh⟩
      { st3 with
        sessions := updateSessionMap st3.sessions nid
          (fun s => { s with hasAnnouncedJoin := true }) }

/-- Model of the `connect` action: mark the room known, create or
reuse the session, and announce the join once per session lifetime
(guarded by `hasAnnouncedJoin`, which is set after the announcement). -/
def connect (st : StoreState) (roomId : String) (user : User) (stored : List String)
    (ctx : ConnectCtx) : StoreState :=
  let nid := normalizeRoomId roomId
  let st1 := markRoomKnown st nid stored
  let st2 :=
    match lookupSession st1.sessions nid with
    | none =>
      { st1 with
        sessions := setSession st1.sessions nid
          (initializeSession nid user ctx.joinNow ctx.fresh ctx.nowP) }
    | some _ => setLocalAwarenessOp st1 nid user ctx.nowP
  announceJoin st2 nid user ctx.msgId ctx.sysNow ctx.fresh

/-- Model of the `disconnect` action: announce the leave only when a
join had been announced, then tear the session down and remove it. -/
def disconnect (st : StoreState) (roomId : String) (user : User) (ctx : OpCtx) :
    StoreState :=
  let nid := normalizeRoomId roomId
  match lookupSession st.sessions nid with
  | none => st
  | some s =>
    let st1 :=
      if s.hasAnnouncedJoin then
        let stR := recordSystemMessage st nid (leaveText user) ctx
        { stR with
          sessions := updateSessionMap stR.sessions nid
            (fun s => { s with hasAnnouncedJoin := false }) }
      else st
    { st1 with sessions := removeSession st1.sessions nid }

/-- A replicated-log entry arriving from a peer: the log grows and the
observer recomputes the view (no-op without a session, as the observer
is unregistered at teardown). -/
def receiveRemote (st : StoreState) (nid : String) (entry : Option RawFields)
    (fresh : Nat → String × Int) : StoreState :=
  match lookupSession st.sessions nid with
  | none => st
  | some _ => pushEntry st nid entry fresh

/-! ## Trim and upper-case lemmas -/

theorem jsTrimList_eq (l : List Char) :
    jsTrimList l = List.rdropWhile jsIsWs (List.dropWhile jsIsWs l) := rfl

theorem dropWhile_jsTrimList (l : List Char) :
    List.dropWhile jsIsWs (jsTrimList l) = jsTrimList l := by
  rw [jsTrimList_eq]
  obtain ⟨rest, hpre⟩ := List.rdropWhile_prefix jsIsWs (List.dropWhile jsIsWs l)
  apply List.dropWhile_eq_self_iff.mpr
  intro hl
  have hidem : List.dropWhile jsIsWs (List.dropWhile jsIsWs l) = List.dropWhile jsIsWs l :=
    List.dropWhile_idempotent jsIsWs l
  have hlenA : 0 < (List.dropWhile jsIsWs l).length := by
    rw [← hpre, List.length_append]
    omega
  have hne := List.dropWhile_eq_self_iff.mp hidem hlenA
  have hgen : ∀ (X : List Char) (hX : X = List.rdropWhile jsIsWs (List.dropWhile jsIsWs l)
        ++ rest) (hx : 0 < X.length),
      X.get ⟨0, hx⟩ = (List.rdropWhile jsIsWs (List.dropWhile jsIsWs l)).get ⟨0, hl⟩ := by
    intro X hX hx
    subst hX
    exact List.get_append 0 hl
  rw [hgen (List.dropWhile jsIsWs l) hpre.symm hlenA] at hne
  exact hne

theorem jsTrimList_idempotent (l : List Char) : jsTrimList (jsTrimList l) = jsTrimList l := by
  calc jsTrimList (jsTrimList l)
      = List.rdropWhile jsIsWs (List.dropWhile jsIsWs (jsTrimList l)) := rfl
    _ = List.rdropWhile jsIsWs (jsTrimList l) := by rw [dropWhile_jsTrimList]
    _ = List.rdropWhile jsIsWs (List.rdropWhile jsIsWs (List.dropWhile jsIsWs l)) := rfl
    _ = List.rdropWhile jsIsWs (List.dropWhile jsIsWs l) :=
        List.rdropWhile_idempotent jsIsWs (List.dropWhile jsIsWs l)
    _ = jsTrimList l := rfl

theorem jsTrim_idempotent (s : String) : jsTrim (jsTrim s) = jsTrim s := by
  unfold jsTrim
  exact congrArg String.mk (jsTrimList_idempotent s.data)

theorem toNat_jsCharToUpper (c : Char) :
    (jsCharToUpper c).toNat
      = if 0x61 ≤ c.toNat ∧ c.toNat ≤ 0x7A then c.toNat - 32 else c.toNat := by
  unfold jsCharToUpper
  split
  · next h =>
    have hv : (c.toNat - 32).isValidChar := by
      show c.toNat - 32 < 0xD800 ∨ _
      left
      omega
    unfold Char.ofNat
    rw [dif_pos hv]
    rfl
  · rfl

theorem jsIsWsNat_false_of_alpha (n : Nat)
    (h : (0x41 ≤ n ∧ n ≤ 0x5A) ∨ (0x61 ≤ n ∧ n ≤ 0x7A)) : jsIsWsNat n = false := by
  unfold jsIsWsNat
  simp only [Bool.or_eq_false_iff, beq_eq_false_iff_ne, ne_eq, Bool.and_eq_false_iff,
    decide_eq_false_iff_not, not_le]
  omega

theorem jsIsWs_jsCharToUpper (c : Char) : jsIsWs (jsCharToUpper c) = jsIsWs c := by
  by_cases h : 0x61 ≤ c.toNat ∧ c.toNat ≤ 0x7A
  · have ht : (jsCharToUpper c).toNat = c.toNat - 32 := by
      rw [toNat_jsCharToUpper, if_pos h]
    unfold jsIsWs
    rw [ht, jsIsWsNat_false_of_alpha _ (Or.inl (by omega)),
      jsIsWsNat_false_of_alpha _ (Or.inr h)]
  · have ht : jsCharToUpper c = c := by unfold jsCharToUpper; rw [if_neg h]
    rw [ht]

theorem jsCharToUpper_of_not_lower (c : Char) (h : ¬ (0x61 ≤ c.toNat ∧ c.toNat ≤ 0x7A)) :
    jsCharToUpper c = c := by
  unfold jsCharToUpper
  rw [if_neg h]

theorem jsCharToUpper_idempotent (c : Char) :
    jsCharToUpper (jsCharToUpper c) = jsCharToUpper c := by
  by_cases h : 0x61 ≤ c.toNat ∧ c.toNat ≤ 0x7A
  · have ht : (jsCharToUpper c).toNat = c.toNat - 32 := by
      rw [toNat_jsCharToUpper, if_pos h]
    exact jsCharToUpper_of_not_lower _ (by omega)
  · rw [jsCharToUpper_of_not_lower c h, jsCharToUpper_of_not_lower c h]

theorem jsTrimList_map_upper (l : List Char) :
    jsTrimList (l.map jsCharToUpper) = (jsTrimList l).map jsCharToUpper := by
  have hfun : jsIsWs ∘ jsCharToUpper = jsIsWs := funext jsIsWs_jsCharToUpper
  unfold jsTrimList
  rw [List.dropWhile_map, hfun, ← List.map_reverse, List.dropWhile_map, hfun,
    ← List.map_reverse]

theorem jsTrim_jsToUpper_comm (s : String) : jsTrim (jsToUpper s) = jsToUpper (jsTrim s) := by
  unfold jsTrim jsToUpper
  exact congrArg String.mk (jsTrimList_map_upper s.data)

theorem jsToUpper_idempotent (s : String) : jsToUpper (jsToUpper s) = jsToUpper s := by
  unfold jsToUpper
  apply congrArg String.mk
  show (s.data.map jsCharToUpper).map jsCharToUpper = _
  rw [List.map_map]
  exact List.map_congr_left (fun a _ => jsCharToUpper_idempotent a)

theorem normalizeRoomId_idempotent (s : String) :
    normalizeRoomId (normalizeRoomId s) = normalizeRoomId s := by
  unfold normalizeRoomId
  rw [jsTrim_jsToUpper_comm (jsTrim s), jsTrim_idempotent, jsToUpper_idempotent]

/-! ## Session-map lemmas -/

theorem lookup_removeSession_self (m : List (String × RoomSession)) (key : String) :
    lookupSession (removeSession m key) key = none := by
  induction m with
  | nil => rfl
  | cons kv rest ih =>
    obtain ⟨k, s⟩ := kv
    simp only [removeSession] at ih ⊢
    rw [List.filter_cons]
    by_cases h : k = key
    · subst h
      simp only [bne_self_eq_false, Bool.false_eq_true, if_false]
      exact ih
    · rw [if_pos (by simp [h])]
      simp only [lookupSession]
      rw [if_neg h]
      exact ih

theorem lookup_removeSession_ne (m : List (String × RoomSession)) (key key' : String)
    (h : key' ≠ key) :
    lookupSession (removeSession m key) key' = lookupSession m key' := by
  induction m with
  | nil => rfl
  | cons kv rest ih =>
    obtain ⟨k, s⟩ := kv
    simp only [removeSession] at ih ⊢
    rw [List.filter_cons]
    by_cases hk : k = key
    · rw [if_neg (by simp [hk])]
      simp only [lookupSession]
      rw [if_neg (by rw [hk]; exact fun hh => h hh.symm)]
      exact ih
    · rw [if_pos (by simp [hk])]
      simp only [lookupSession]
      by_cases hkk : k = key'
      · rw [if_pos hkk, if_pos hkk]
      · rw [if_neg hkk, if_neg hkk]
        exact ih

theorem lookup_updateSessionMap_self (m : List (String × RoomSession)) (key : String)
    (f : RoomSession → RoomSession) :
    lookupSession (updateSessionMap m key f) key = (lookupSession m key).map f := by
  induction m with
  | nil => rfl
  | cons kv rest ih =>
    obtain ⟨k, s⟩ := kv
    simp only [updateSessionMap] at ih ⊢
    rw [List.map_cons]
    simp only [updateEntry]
    by_cases h : k = key
    · rw [if_pos h]
      simp only [lookupSession]
      rw [if_pos h, if_pos h]
      rfl
    · rw [if_neg h]
      simp only [lookupSession]
      rw [if_neg h, if_neg h]
      exact ih

theorem lookup_updateSessionMap_ne (m : List (String × RoomSession)) (key key' : String)
    (f : RoomSession → RoomSession) (h : key' ≠ key) :
    lookupSession (updateSessionMap m key f) key' = lookupSession m key' := by
  induction m with
  | nil => rfl
  | cons kv rest ih =>
    obtain ⟨k, s⟩ := kv
    simp only [updateSessionMap] at ih ⊢
    rw [List.map_cons]
    simp only [updateEntry]
    by_cases hk : k = key
    · rw [if_pos hk]
      simp only [lookupSession]
      rw [if_neg (by rw [hk]; exact fun hh => h hh.symm),
        if_neg (by rw [hk]; exact fun hh => h hh.symm)]
      exact ih
    · rw [if_neg hk]
      simp only [lookupSession]
      by_cases hkk : k = key'
      · rw [if_pos hkk, if_pos hkk]
      · rw [if_neg hkk, if_neg hkk]
        exact ih

theorem lookup_setSession_self (m : List (String × RoomSession)) (key : String)
    (s : RoomSession) : lookupSession (setSession m key s) key = some s := by
  induction m with
  | nil =>
    simp only [setSession, lookupSession]
    simp
  | cons kv rest ih =>
    obtain ⟨k, s0⟩ := kv
    simp only [setSession]
    by_cases h : k = key
    · rw [if_pos h]
      simp only [lookupSession]
      simp
    · rw [if_neg h]
      simp only [lookupSession]
      rw [if_neg h]
      exact ih

theorem lookup_setSession_ne (m : List (String × RoomSession)) (key key' : String)
    (s : RoomSession) (h : key' ≠ key) :
    lookupSession (setSession m key s) key' = lookupSession m key' := by
  induction m with
  | nil =>
    simp only [setSession, lookupSession]
    rw [if_neg (fun hh : key = key' => h hh.symm)]
  | cons kv rest ih =>
    obtain ⟨k, s0⟩ := kv
    simp only [setSession]
    by_cases hk : k = key
    · rw [if_pos hk]
      simp only [lookupSession]
      rw [if_neg (fun hh : key = key' => h hh.symm),
        if_neg (show ¬ k = key' by rw [hk]; exact fun hh => h hh.symm)]
    · rw [if_neg hk]
      simp only [lookupSession]
      by_cases hkk : k = key'
      · rw [if_pos hkk, if_pos hkk]
      · rw [if_neg hkk, if_neg hkk]
        exact ih

/-! ## Frame lemmas for the operations -/

theorem ensureLoaded_sessions (st : StoreState) (stored : List String) :
    (ensureLoaded st stored).sessions = st.sessions := by
  unfold ensureLoaded
  split <;> rfl

theorem markRoomKnown_sessions (st : StoreState) (roomId : String) (stored : List String) :
    (markRoomKnown st roomId stored).sessions = st.sessions := by
  simp only [markRoomKnown]
  split
  · exact ensureLoaded_sessions st stored
  · exact ensureLoaded_sessions st stored

theorem sessionLog_setLocalAwarenessOp (st : StoreState) (nid : String) (user : User)
    (nowP : Int) (key : String) :
    sessionLog (setLocalAwarenessOp st nid user nowP) key = sessionLog st key := by
  unfold sessionLog setLocalAwarenessOp
  by_cases h : key = nid
  · subst h
    rw [lookup_updateSessionMap_self]
    cases lookupSession st.sessions key <;> rfl
  · rw [lookup_updateSessionMap_ne _ _ _ _ h]

theorem recordSystemMessage_absent (st : StoreState) (roomId content : String)
    (ctx : OpCtx) (h : lookupSession st.sessions (normalizeRoomId roomId) = none) :
    recordSystemMessage st roomId content ctx = st := by
  simp only [recordSystemMessage, h]

theorem recordSystemMessage_present (st : StoreState) (roomId content : String)
    (ctx : OpCtx) (s : RoomSession)
    (h : lookupSession st.sessions (normalizeRoomId roomId) = some s) :
    recordSystemMessage st roomId content ctx
      = pushEntry st (normalizeRoomId roomId)
          (some (sysEntry (normalizeRoomId roomId) content ctx.msgId ctx.now)) ctx.fresh := by
  simp only [recordSystemMessage, h]

theorem disconnect_absent (st : StoreState) (roomId : String) (user : User) (ctx : OpCtx)
    (h : lookupSession st.sessions (normalizeRoomId roomId) = none) :
    disconnect st roomId user ctx = st := by
  simp only [disconnect, h]

theorem disconnect_lookup_self (st : StoreState) (roomId : String) (user : User)
    (ctx : OpCtx) :
    lookupSession (disconnect st roomId user ctx).sessions (normalizeRoomId roomId)
      = none := by
  cases hl : lookupSession st.sessions (normalizeRoomId roomId) with
  | none =>
    rw [disconnect_absent st roomId user ctx hl]
    exact hl
  | some s =>
    simp only [disconnect, hl]
    exact lookup_removeSession_self _ _

/-! ## C6 and C7 -/

/-- **C6** (disconnect is repeatable and a no-op on absent sessions):
`disconnect` on a room with no active session returns the state
unchanged; a second `disconnect` right after a first one changes
nothing; and when the session had never announced a join, `disconnect`
only removes the session, appending no "user left" message. -/
theorem c6_disconnect_repeatable (st : StoreState) (roomId : String) (user u2 : User)
    (ctx ctx2 : OpCtx) :
    (lookupSession st.sessions (normalizeRoomId roomId) = none →
      disconnect st roomId user ctx = st) ∧
    disconnect (disconnect st roomId user ctx) roomId u2 ctx2
      = disconnect st roomId user ctx ∧
    (∀ s, lookupSession st.sessions (normalizeRoomId roomId) = some s →
      s.hasAnnouncedJoin = false →
      disconnect st roomId user ctx
        = { st with sessions := removeSession st.sessions (normalizeRoomId roomId) }) := by
  refine ⟨fun h => disconnect_absent st roomId user ctx h,
    disconnect_absent _ roomId u2 ctx2 (disconnect_lookup_self st roomId user ctx), ?_⟩
  intro s hs hflag
  simp only [disconnect, hs, hflag]
  simp

/-- Witness for C6 at a concrete store holding one never-announced
session. -/
theorem c6_witness :
    disconnect
      ⟨["R"], [("R", ⟨"R", [], [], [], false, 0, ⟨some "u", some "n", some 0⟩, []⟩)], true⟩
      "R" ⟨"u", "n"⟩ ⟨"m", 0, fun _ => ("f", 0)⟩
      = { (⟨["R"], [("R", ⟨"R", [], [], [], false, 0, ⟨some "u", some "n", some 0⟩, []⟩)],
            true⟩ : StoreState) with
          sessions := removeSession
            [("R", ⟨"R", [], [], [], false, 0, ⟨some "u", some "n", some 0⟩, []⟩)]
            (normalizeRoomId "R") } :=
  (c6_disconnect_repeatable _ "R" ⟨"u", "n"⟩ ⟨"u", "n"⟩ ⟨"m", 0, fun _ => ("f", 0)⟩
    ⟨"m", 0, fun _ => ("f", 0)⟩).2.2 _ rfl rfl

/-- **C7** (unknown-room no-ops): `sendMessage`, `updateLocalUsername`
and `recordSystemMessage` on a room with no active session return the
store state entirely unchanged. -/
theorem c7_unknown_room_noops (st : StoreState) (roomId : String) (payload : SendPayload)
    (user : User) (content : String) (ctx ctx2 : OpCtx) (nowP : Int)
    (h : lookupSession st.sessions (normalizeRoomId roomId) = none) :
    sendMessage st roomId payload ctx = st ∧
    updateLocalUsername st roomId user nowP = st ∧
    recordSystemMessage st roomId content ctx2 = st := by
  refine ⟨?_, ?_, ?_⟩
  · simp only [sendMessage, h]
  · simp only [updateLocalUsername, h]
  · simp only [recordSystemMessage, h]

/-- Witness for C7 at the empty store. -/
theorem c7_witness :
    sendMessage ⟨[], [], false⟩ "R" ⟨"u", "n", "hi"⟩ ⟨"m", 0, fun _ => ("f", 0)⟩
        = ⟨[], [], false⟩ ∧
    updateLocalUsername ⟨[], [], false⟩ "R" ⟨"u", "n"⟩ 0 = ⟨[], [], false⟩ ∧
    recordSystemMessage ⟨[], [], false⟩ "R" "hello" ⟨"m", 0, fun _ => ("f", 0)⟩
        = ⟨[], [], false⟩ :=
  c7_unknown_room_noops ⟨[], [], false⟩ "R" ⟨"u", "n", "hi"⟩ ⟨"u", "n"⟩ "hello"
    ⟨"m", 0, fun _ => ("f", 0)⟩ ⟨"m", 0, fun _ => ("f", 0)⟩ 0 rfl

/-! ## C2: idempotent join announcement -/

theorem initializeSession_flag (nid : String) (user : User) (joinNow : Int)
    (fresh : Nat → String × Int) (nowP : Int) :
    (initializeSession nid user joinNow fresh nowP).hasAnnouncedJoin = false := rfl

theorem setLocalAwarenessOp_lookup_flag (st : StoreState) (nid : String) (user : User)
    (nowP : Int) (s : RoomSession) (hs : lookupSession st.sessions nid = some s) :
    ∃ s', lookupSession (setLocalAwarenessOp st nid user nowP).sessions nid = some s' ∧
      s'.hasAnnouncedJoin = s.hasAnnouncedJoin ∧ s'.yMessages = s.yMessages := by
  unfold setLocalAwarenessOp
  rw [lookup_updateSessionMap_self, hs]
  exact ⟨_, rfl, rfl, rfl⟩

theorem pushEntry_lookup_self (st : StoreState) (nid : String) (e : Option RawFields)
    (fresh : Nat → String × Int) (s : RoomSession)
    (hs : lookupSession st.sessions nid = some s) :
    lookupSession (pushEntry st nid e fresh).sessions nid
      = some { s with
          yMessages := s.yMessages ++ [e]
          messages := updateMessagesView nid fresh (s.yMessages ++ [e]) } := by
  unfold pushEntry
  rw [lookup_updateSessionMap_self, hs]
  rfl

theorem announceJoin_noop (st2 : StoreState) (nid : String) (user : User) (msgId : String)
    (sysNow : Int) (fresh : Nat → String × Int) (s : RoomSession)
    (hs : lookupSession st2.sessions nid = some s) (hann : s.hasAnnouncedJoin = true) :
    announceJoin st2 nid user msgId sysNow fresh = st2 := by
  simp only [announceJoin, hs]
  rw [if_pos hann]

theorem announceJoin_flag (st2 : StoreState) (nid : String) (user : User) (msgId : String)
    (sysNow : Int) (fresh : Nat → String × Int) (s : RoomSession)
    (hnid : normalizeRoomId nid = nid)
    (hs : lookupSession st2.sessions nid = some s) :
    ∃ s', lookupSession (announceJoin st2 nid user msgId sysNow fresh).sessions nid
        = some s' ∧ s'.hasAnnouncedJoin = true := by
  simp only [announceJoin, hs]
  by_cases hann : s.hasAnnouncedJoin = true
  · rw [if_pos hann]
    exact ⟨s, hs, hann⟩
  · rw [if_neg hann]
    rw [recordSystemMessage_present st2 nid (welcomeText user) ⟨msgId, sysNow, fresh⟩ s
      (by rw [hnid]; exact hs), hnid]
    simp only [lookup_updateSessionMap_self]
    rw [pushEntry_lookup_self st2 nid _ fresh s hs]
    exact ⟨_, rfl, rfl⟩

theorem sessionLog_markRoomKnown (st : StoreState) (roomId : String) (stored : List String)
    (key : String) : sessionLog (markRoomKnown st roomId stored) key = sessionLog st key := by
  unfold sessionLog
  rw [markRoomKnown_sessions]

/-- **C2** (idempotent join announcement): after a `connect` the
session for the room exists with `hasAnnouncedJoin` set; a second
`connect` while the session is open leaves every session's replicated
log unchanged (no re-announcement); and a `connect` that creates the
session appends exactly the one welcome system entry to its log. -/
theorem c2_idempotent_join (st : StoreState) (roomId : String) (user u2 : User)
    (stored stored2 : List String) (ctx ctx2 : ConnectCtx) :
    (∃ s, lookupSession (connect st roomId user stored ctx).sessions
        (normalizeRoomId roomId) = some s ∧ s.hasAnnouncedJoin = true) ∧
    (∀ key, sessionLog (connect (connect st roomId user stored ctx) roomId u2 stored2 ctx2)
        key = sessionLog (connect st roomId user stored ctx) key) ∧
    (lookupSession st.sessions (normalizeRoomId roomId) = none →
      sessionLog (connect st roomId user stored ctx) (normalizeRoomId roomId)
        = some [some (sysEntry (normalizeRoomId roomId) (welcomeText user)
            ctx.msgId ctx.sysNow)]) := by
  have hconn : ∃ s, lookupSession (connect st roomId user stored ctx).sessions
      (normalizeRoomId roomId) = some s ∧ s.hasAnnouncedJoin = true := by
    simp only [connect, markRoomKnown_sessions]
    cases hl : lookupSession st.sessions (normalizeRoomId roomId) with
    | none =>
      exact announceJoin_flag _ _ user ctx.msgId ctx.sysNow ctx.fresh _
        (normalizeRoomId_idempotent roomId) (lookup_setSession_self _ _ _)
    | some s =>
      obtain ⟨s', hs', _, _⟩ := setLocalAwarenessOp_lookup_flag
        (markRoomKnown st (normalizeRoomId roomId) stored) (normalizeRoomId roomId)
        user ctx.nowP s (by rw [markRoomKnown_sessions]; exact hl)
      exact announceJoin_flag _ _ user ctx.msgId ctx.sysNow ctx.fresh s'
        (normalizeRoomId_idempotent roomId) hs'
  refine ⟨hconn, ?_, ?_⟩
  · obtain ⟨s1, hs1, hflag1⟩ := hconn
    intro key
    generalize hgen : connect st roomId user stored ctx = stA at hs1 ⊢
    simp only [connect, markRoomKnown_sessions, hs1]
    obtain ⟨s1', hs1', hflag1', hlog1'⟩ := setLocalAwarenessOp_lookup_flag
      (markRoomKnown stA (normalizeRoomId roomId) stored2)
      (normalizeRoomId roomId) u2 ctx2.nowP s1
      (by rw [markRoomKnown_sessions]; exact hs1)
    rw [announceJoin_noop _ _ u2 ctx2.msgId ctx2.sysNow ctx2.fresh s1' hs1'
      (by rw [hflag1']; exact hflag1)]
    rw [sessionLog_setLocalAwarenessOp, sessionLog_markRoomKnown]
  · intro hl
    simp only [connect, markRoomKnown_sessions, hl]
    have hset : lookupSession (setSession st.sessions (normalizeRoomId roomId)
        (initializeSession (normalizeRoomId roomId) user ctx.joinNow ctx.fresh ctx.nowP))
        (normalizeRoomId roomId)
        = some (initializeSession (normalizeRoomId roomId) user ctx.joinNow ctx.fresh
            ctx.nowP) :=
      lookup_setSession_self _ _ _
    simp only [announceJoin, hset, initializeSession_flag, Bool.false_eq_true, if_false]
    rw [recordSystemMessage_present _ _ (welcomeText user) ⟨ctx.msgId, ctx.sysNow, ctx.fresh⟩
      _ (by rw [normalizeRoomId_idempotent]; exact hset), normalizeRoomId_idempotent]
    unfold sessionLog
    simp only [lookup_updateSessionMap_self]
    rw [pushEntry_lookup_self _ _ _ ctx.fresh _ hset]
    rfl

/-- Witness for C2 at the empty store: connecting twice to room `R`
leaves exactly one welcome entry in the log. -/
theorem c2_witness :
    sessionLog (connect ⟨[], [], false⟩ "R" ⟨"u", "n"⟩ []
        ⟨0, 0, "m", 5, fun _ => ("f", 0)⟩) (normalizeRoomId "R")
      = some [some (sysEntry (normalizeRoomId "R") (welcomeText ⟨"u", "n"⟩) "m" 5)] :=
  (c2_idempotent_join ⟨[], [], false⟩ "R" ⟨"u", "n"⟩ ⟨"u", "n"⟩ [] []
    ⟨0, 0, "m", 5, fun _ => ("f", 0)⟩ ⟨0, 0, "m", 5, fun _ => ("f", 0)⟩).2.2 rfl

/-! ## Sorting and sanitizing lemmas -/

theorem mem_insertByTs (m x : RoomMessage) (l : List RoomMessage) :
    x ∈ insertByTs m l ↔ x = m ∨ x ∈ l := by
  induction l with
  | nil => simp [insertByTs]
  | cons a l ih =>
    unfold insertByTs
    by_cases h : a.timestamp < m.timestamp
    · rw [if_pos h]
      simp only [List.mem_cons, ih]
      tauto
    · rw [if_neg h]
      simp only [List.mem_cons]

theorem pairwise_insertByTs (m : RoomMessage) (l : List RoomMessage)
    (h : List.Pairwise (fun a b => a.timestamp ≤ b.timestamp) l) :
    List.Pairwise (fun a b => a.timestamp ≤ b.timestamp) (insertByTs m l) := by
  induction l with
  | nil => simp [insertByTs]
  | cons a l ih =>
    rcases List.pairwise_cons.mp h with ⟨ha, hl⟩
    unfold insertByTs
    by_cases hc : a.timestamp < m.timestamp
    · rw [if_pos hc]
      apply List.pairwise_cons.mpr
      refine ⟨?_, ih hl⟩
      intro y hy
      rcases (mem_insertByTs m y l).mp hy with rfl | hy
      · omega
      · exact ha y hy
    · rw [if_neg hc]
      apply List.pairwise_cons.mpr
      refine ⟨?_, h⟩
      intro y hy
      rcases List.mem_cons.mp hy with rfl | hy
      · omega
      · have := ha y hy
        omega

theorem pairwise_sortByTimestamp (l : List RoomMessage) :
    List.Pairwise (fun a b => a.timestamp ≤ b.timestamp) (sortByTimestamp l) := by
  unfold sortByTimestamp
  induction l with
  | nil => simp
  | cons a l ih =>
    rw [List.foldr_cons]
    exact pairwise_insertByTs a _ ih

theorem mem_sortByTimestamp (l : List RoomMessage) (x : RoomMessage) :
    x ∈ sortByTimestamp l ↔ x ∈ l := by
  unfold sortByTimestamp
  induction l with
  | nil => simp
  | cons a l ih =>
    rw [List.foldr_cons, mem_insertByTs]
    simp [ih]

theorem filter_ts_insertByTs (m : RoomMessage) (l : List RoomMessage) (t : Int) :
    (insertByTs m l).filter (fun x => x.timestamp == t)
      = ((m :: l).filter (fun x => x.timestamp == t)) := by
  induction l with
  | nil => rfl
  | cons a l ih =>
    unfold insertByTs
    by_cases hc : a.timestamp < m.timestamp
    · rw [if_pos hc]
      by_cases hpa : (a.timestamp == t) = true
      · by_cases hpm : (m.timestamp == t) = true
        · exfalso
          rw [beq_iff_eq] at hpa hpm
          omega
        · simp [List.filter_cons, hpa, hpm, ih]
      · simp [List.filter_cons, hpa, ih]
    · rw [if_neg hc]

theorem filter_ts_sortByTimestamp (l : List RoomMessage) (t : Int) :
    (sortByTimestamp l).filter (fun x => x.timestamp == t)
      = l.filter (fun x => x.timestamp == t) := by
  induction l with
  | nil => rfl
  | cons a l ih =>
    show (insertByTs a (sortByTimestamp l)).filter (fun x => x.timestamp == t) = _
    rw [filter_ts_insertByTs, List.filter_cons, List.filter_cons, ih]

theorem mem_sanitizeLog (roomId : String) (fresh : Nat → String × Int) :
    ∀ (log : List (Option RawFields)) (i : Nat) (m : RoomMessage),
      m ∈ sanitizeLog roomId fresh i log →
      ∃ j item, sanitizeMessage roomId (fresh j).1 (fresh j).2 item = some m := by
  intro log
  induction log with
  | nil =>
    intro i m hm
    simp [sanitizeLog] at hm
  | cons item rest ih =>
    intro i m hm
    unfold sanitizeLog at hm
    cases hsan : sanitizeMessage roomId (fresh i).1 (fresh i).2 item with
    | some m0 =>
      rw [hsan] at hm
      rcases List.mem_cons.mp hm with rfl | hm
      · exact ⟨i, item, hsan⟩
      · exact ih (i + 1) m hm
    | none =>
      rw [hsan] at hm
      exact ih (i + 1) m hm

theorem sanitizeMessage_some_props (roomId freshId : String) (now : Int)
    (payload : Option RawFields) (m : RoomMessage)
    (h : sanitizeMessage roomId freshId now payload = some m) :
    m.content = jsTrim m.content ∧ (m.type = MessageType.chat → m.content ≠ "") := by
  cases payload with
  | none => simp [sanitizeMessage] at h
  | some r =>
    simp only [sanitizeMessage] at h
    by_cases hc : (if r.rawType = some "system" then MessageType.system
        else MessageType.chat) = MessageType.chat ∧
        (jsTrim (decryptContent roomId (r.rawContent.getD ""))).data.length = 0
    · rw [if_pos hc] at h
      exact absurd h (by simp)
    · rw [if_neg hc] at h
      obtain rfl := Option.some.inj h
      simp only [not_and] at hc
      constructor
      · exact (jsTrim_idempotent (decryptContent roomId (r.rawContent.getD ""))).symm
      · intro htype hempty
        apply hc htype
        rw [show jsTrim (decryptContent roomId (r.rawContent.getD "")) = "" from hempty]
        rfl

/-! ## C4, C5 and C10 -/

/-- **C4** (chat emptiness filter): a raw `chat` entry whose decrypted,
trimmed content is empty is rejected by `sanitizeMessage` and never
materialized into the messages view; a raw `system` entry with the very
same content is admitted and does appear in the view. -/
theorem c4_chat_emptiness_filter (roomId freshId : String) (now : Int) (r : RawFields)
    (fresh : Nat → String × Int)
    (hchat : ¬ r.rawType = some "system")
    (hempty : (jsTrim (decryptContent roomId (r.rawContent.getD ""))).data.length = 0) :
    sanitizeMessage roomId freshId now (some r) = none ∧
    updateMessagesView roomId fresh [some r] = [] ∧
    (∀ sys : RawFields, sys.rawType = some "system" → sys.rawContent = r.rawContent →
      ∃ msg, sanitizeMessage roomId (fresh 0).1 (fresh 0).2 (some sys) = some msg ∧
        msg.type = MessageType.system ∧
        updateMessagesView roomId fresh [some sys] = [msg]) := by
  have hdrop : ∀ (fid : String) (nw : Int),
      sanitizeMessage roomId fid nw (some r) = none := by
    intro fid nw
    simp only [sanitizeMessage]
    rw [if_pos ⟨by rw [if_neg hchat], hempty⟩]
  refine ⟨hdrop freshId now, ?_, ?_⟩
  · unfold updateMessagesView sanitizeLog
    rw [hdrop (fresh 0).1 (fresh 0).2]
    rfl
  · intro sys hsys hcontent
    have hkeep : sanitizeMessage roomId (fresh 0).1 (fresh 0).2 (some sys)
        = some
          { id := match sys.rawId with
              | some i => if 0 < (jsTrim i).data.length then i else (fresh 0).1
              | none => (fresh 0).1
            type := MessageType.system
            userId := sys.rawUserId.getD "system"
            username := match sys.rawUsername with
              | some u => if 0 < (jsTrim u).data.length then u else DEFAULT_USERNAME
              | none => DEFAULT_USERNAME
            content := jsTrim (decryptContent roomId (sys.rawContent.getD ""))
            timestamp := sys.rawTimestamp.getD (fresh 0).2
            encrypted := jsStartsWith (sys.rawContent.getD "") encTag
              || sys.rawEncrypted == some true } := by
      simp only [sanitizeMessage, hsys, if_true]
      rw [if_neg (by simp)]
    refine ⟨_, hkeep, rfl, ?_⟩
    unfold updateMessagesView sanitizeLog
    rw [hkeep]
    rfl

/-- Witness for C4: an encrypted-empty chat payload (plain whitespace
content) is dropped while the system twin is kept. -/
theorem c4_witness :
    sanitizeMessage "R" "f" 0 (some ⟨some "a", some "chat", some "u", some "n",
        some "  ", some 1, some false⟩) = none ∧
    updateMessagesView "R" (fun _ => ("f", 0)) [some ⟨some "a", some "chat", some "u",
        some "n", some "  ", some 1, some false⟩] = [] ∧
    (∀ sys : RawFields, sys.rawType = some "system" → sys.rawContent = some "  " →
      ∃ msg, sanitizeMessage "R" "f" 0 (some sys) = some msg ∧
        msg.type = MessageType.system ∧
        updateMessagesView "R" (fun _ => ("f", 0)) [some sys] = [msg]) :=
  c4_chat_emptiness_filter "R" "f" 0
    ⟨some "a", some "chat", some "u", some "n", some "  ", some 1, some false⟩
    (fun _ => ("f", 0)) (by decide) (by decide)

/-- **C5** (message ordering): every materialized view is sorted
ascending by timestamp; ties keep the sanitized log's order (the view
filtered to one timestamp equals the unsorted sanitized log so
filtered); the concrete log with timestamps `[30, 10, 20]` materializes
in order `[10, 20, 30]`; and without a session `getMessages` returns
the empty sequence. -/
theorem c5_message_ordering :
    (∀ (roomId : String) (fresh : Nat → String × Int) (log : List (Option RawFields)),
      List.Pairwise (fun a b => a.timestamp ≤ b.timestamp)
        (updateMessagesView roomId fresh log)) ∧
    (∀ (roomId : String) (fresh : Nat → String × Int) (log : List (Option RawFields))
      (t : Int),
      (updateMessagesView roomId fresh log).filter (fun x => x.timestamp == t)
        = (sanitizeLog roomId fresh 0 log).filter (fun x => x.timestamp == t)) ∧
    updateMessagesView "R" (fun _ => ("f", 0))
      [some ⟨some "a", some "chat", some "u", some "n", some "x", some 30, some false⟩,
       some ⟨some "b", some "chat", some "u", some "n", some "y", some 10, some false⟩,
       some ⟨some "c", some "chat", some "u", some "n", some "z", some 20, some false⟩]
      = [⟨"b", MessageType.chat, "u", "n", "y", 10, false⟩,
         ⟨"c", MessageType.chat, "u", "n", "z", 20, false⟩,
         ⟨"a", MessageType.chat, "u", "n", "x", 30, false⟩] ∧
    (∀ (st : StoreState) (roomId : String),
      lookupSession st.sessions (normalizeRoomId roomId) = none →
      getMessages st roomId = []) := by
  refine ⟨?_, ?_, by decide, ?_⟩
  · intro roomId fresh log
    exact pairwise_sortByTimestamp _
  · intro roomId fresh log t
    exact filter_ts_sortByTimestamp _ _
  · intro st roomId h
    simp only [getMessages, h]

/-- Witness for C5 at the empty store. -/
theorem c5_witness : getMessages ⟨[], [], false⟩ "R" = [] :=
  c5_message_ordering.2.2.2 ⟨[], [], false⟩ "R" rfl

/-- **C10** (trimmed-view invariant): every message of a recomputed
materialized view has content equal to its own trim, and every `chat`
message in the view has non-empty content. -/
theorem c10_trimmed_view (roomId : String) (fresh : Nat → String × Int)
    (log : List (Option RawFields)) :
    ∀ m ∈ updateMessagesView roomId fresh log,
      m.content = jsTrim m.content ∧ (m.type = MessageType.chat → m.content ≠ "") := by
  intro m hm
  unfold updateMessagesView at hm
  have hm2 := (mem_sortByTimestamp _ _).mp hm
  obtain ⟨j, item, hsan⟩ := mem_sanitizeLog roomId fresh log 0 m hm2
  exact sanitizeMessage_some_props roomId (fresh j).1 (fresh j).2 item m hsan

/-- Witness for C10 on a concrete one-entry log with padded content. -/
theorem c10_witness :
    (⟨"a", MessageType.chat, "u", "n", "hi", 1, false⟩ : RoomMessage).content
        = jsTrim (⟨"a", MessageType.chat, "u", "n", "hi", 1, false⟩ : RoomMessage).content ∧
      ((⟨"a", MessageType.chat, "u", "n", "hi", 1, false⟩ : RoomMessage).type
          = MessageType.chat →
        (⟨"a", MessageType.chat, "u", "n", "hi", 1, false⟩ : RoomMessage).content ≠ "") :=
  c10_trimmed_view "R" (fun _ => ("f", 0))
    [some ⟨some "a", some "chat", some "u", some "n", some " hi ", some 1, some false⟩]
    ⟨"a", MessageType.chat, "u", "n", "hi", 1, false⟩ (by decide)

/-! ## C8: decryption is total -/

/-- **C8** (decrypt is total and never throws): a token without the
version tag is returned unchanged; a tagged token whose base64 decoding
fails yields the fixed sentinel string; and decrypting a well-formed
encryption under any (possibly different) room id always takes the
successful decode path — cross-room decryption never reaches the
failure handler, let alone throws. -/
theorem c8_decrypt_total (R : String) :
    (∀ payload : String, jsStartsWith payload encTag = false →
      decryptContent R payload = payload) ∧
    (∀ payload : String, jsStartsWith payload encTag = true →
      fromBase64 (jsSlice payload encTag.data.length) = none →
      decryptContent R payload = decryptFailText) ∧
    (∀ (R1 S : String), ¬ S.data.length = 0 →
      decryptContent R (encryptContent R1 S)
        = decodeUtf8 (xorBytes R (xorBytes R1 (encodeUtf8 S)))) := by
  refine ⟨?_, ?_, ?_⟩
  · intro payload h
    unfold decryptContent
    rw [h]
    simp
  · intro payload hs hfail
    unfold decryptContent
    rw [hs, hfail]
    simp
  · intro R1 S hS
    rw [encryptContent_append_form R1 S hS]
    have hstart : jsStartsWith (encTag ++ toBase64 (xorBytes R1 (encodeUtf8 S))) encTag
        = true := by
      unfold jsStartsWith
      rw [String.data_append]
      exact listStarts_append _ _
    have hslice : jsSlice (encTag ++ toBase64 (xorBytes R1 (encodeUtf8 S)))
        encTag.data.length = toBase64 (xorBytes R1 (encodeUtf8 S)) := by
      unfold jsSlice
      rw [String.data_append, List.drop_left, string_mk_data]
    unfold decryptContent
    rw [hstart]
    simp only [Bool.not_true, Bool.false_eq_true, if_false]
    rw [hslice, fromBase64_toBase64 (xorBytes R1 (encodeUtf8 S))
      (fun b hb => xorWithState_lt_256 (seedState R1) (encodeUtf8 S) b hb)]

/-- Witness for C8: an untagged token round-trips unchanged and a
tagged token with malformed base64 yields the sentinel. -/
theorem c8_witness :
    decryptContent "X" "plain" = "plain" ∧
    decryptContent "X" "enc::v1::!!!" = decryptFailText :=
  ⟨(c8_decrypt_total "X").1 "plain" (by decide),
   (c8_decrypt_total "X").2.1 "enc::v1::!!!" (by decide) (by decide)⟩

/-! ## C9: canonical room addressing -/

/-- Store states reachable through the public room-keyed operations
from the initial store state. -/
inductive Reachable : StoreState → Prop
  | init : Reachable ⟨[], [], false⟩
  | ensure (st : StoreState) (stored : List String) :
      Reachable st → Reachable (ensureLoaded st stored)
  | mark (st : StoreState) (rid : String) (stored : List String) :
      Reachable st → Reachable (markRoomKnown st rid stored)
  | conn (st : StoreState) (rid : String) (u : User) (stored : List String)
      (ctx : ConnectCtx) : Reachable st → Reachable (connect st rid u stored ctx)
  | disc (st : StoreState) (rid : String) (u : User) (ctx : OpCtx) :
      Reachable st → Reachable (disconnect st rid u ctx)
  | send (st : StoreState) (rid : String) (p : SendPayload) (ctx : OpCtx) :
      Reachable st → Reachable (sendMessage st rid p ctx)
  | rename (st : StoreState) (rid : String) (u : User) (nowP : Int) :
      Reachable st → Reachable (updateLocalUsername st rid u nowP)
  | record (st : StoreState) (rid content : String) (ctx : OpCtx) :
      Reachable st → Reachable (recordSystemMessage st rid content ctx)
  | remote (st : StoreState) (nid : String) (entry : Option RawFields)
      (fresh : Nat → String × Int) : Reachable st → Reachable (receiveRemote st nid entry fresh)
  | room (st : StoreState) (rid : String) (stored : List String) :
      Reachable st → Reachable (hasRoom st rid stored).1

/-- Every key of the session map and every known room id is in
canonical (trim-then-uppercase) form. -/
def CanonKeys (st : StoreState) : Prop :=
  (∀ kv ∈ st.sessions, normalizeRoomId kv.1 = kv.1) ∧
  (∀ room ∈ st.knownRooms, normalizeRoomId room = room)

theorem updateEntry_fst (key : String) (f : RoomSession → RoomSession)
    (kv : String × RoomSession) : (updateEntry key f kv).1 = kv.1 := by
  obtain ⟨k, s⟩ := kv
  simp only [updateEntry]
  split <;> rfl

theorem mem_setSession (m : List (String × RoomSession)) (key : String) (s : RoomSession)
    (kv : String × RoomSession) (h : kv ∈ setSession m key s) : kv.1 = key ∨ kv ∈ m := by
  induction m with
  | nil =>
    simp only [setSession, List.mem_singleton] at h
    subst h
    left
    rfl
  | cons kv0 rest ih =>
    obtain ⟨k, s0⟩ := kv0
    simp only [setSession] at h
    by_cases hk : k = key
    · rw [if_pos hk] at h
      rcases List.mem_cons.mp h with rfl | h
      · left; rfl
      · right; exact List.mem_cons_of_mem _ h
    · rw [if_neg hk] at h
      rcases List.mem_cons.mp h with rfl | h
      · right; exact List.mem_cons_self _ _
      · rcases ih h with h1 | h1
        · left; exact h1
        · right; exact List.mem_cons_of_mem _ h1

theorem canon_sessions_update (m : List (String × RoomSession)) (key : String)
    (f : RoomSession → RoomSession) (h : ∀ kv ∈ m, normalizeRoomId kv.1 = kv.1) :
    ∀ kv ∈ updateSessionMap m key f, normalizeRoomId kv.1 = kv.1 := by
  intro kv hkv
  obtain ⟨kv0, hkv0, rfl⟩ := List.mem_map.mp hkv
  rw [updateEntry_fst]
  exact h kv0 hkv0

theorem canon_ensureLoaded (st : StoreState) (stored : List String) (h : CanonKeys st) :
    CanonKeys (ensureLoaded st stored) := by
  unfold ensureLoaded
  split
  · exact h
  · refine ⟨h.1, ?_⟩
    intro room hr
    obtain ⟨x, _, rfl⟩ := List.mem_map.mp hr
    exact normalizeRoomId_idempotent x

theorem canon_markRoomKnown (st : StoreState) (rid : String) (stored : List String)
    (h : CanonKeys st) : CanonKeys (markRoomKnown st rid stored) := by
  have h1 := canon_ensureLoaded st stored h
  simp only [markRoomKnown]
  split
  · exact h1
  · refine ⟨h1.1, ?_⟩
    intro room hr
    rcases List.mem_append.mp hr with hr | hr
    · exact h1.2 room hr
    · rw [List.mem_singleton] at hr
      subst hr
      exact normalizeRoomId_idempotent rid

theorem canon_pushEntry (st : StoreState) (nid : String) (e : Option RawFields)
    (fresh : Nat → String × Int) (h : CanonKeys st) : CanonKeys (pushEntry st nid e fresh) := by
  unfold pushEntry
  exact ⟨canon_sessions_update _ _ _ h.1, h.2⟩

theorem canon_recordSystemMessage (st : StoreState) (rid content : String) (ctx : OpCtx)
    (h : CanonKeys st) : CanonKeys (recordSystemMessage st rid content ctx) := by
  cases hl : lookupSession st.sessions (normalizeRoomId rid) with
  | none =>
    simp only [recordSystemMessage, hl]
    exact h
  | some s =>
    simp only [recordSystemMessage, hl]
    exact canon_pushEntry _ _ _ _ h

theorem canon_sendMessage (st : StoreState) (rid : String) (p : SendPayload) (ctx : OpCtx)
    (h : CanonKeys st) : CanonKeys (sendMessage st rid p ctx) := by
  cases hl : lookupSession st.sessions (normalizeRoomId rid) with
  | none =>
    simp only [sendMessage, hl]
    exact h
  | some s =>
    simp only [sendMessage, hl]
    split
    · exact h
    · exact canon_pushEntry _ _ _ _ h

theorem canon_setLocalAwarenessOp (st : StoreState) (nid : String) (u : User) (nowP : Int)
    (h : CanonKeys st) : CanonKeys (setLocalAwarenessOp st nid u nowP) := by
  unfold setLocalAwarenessOp
  exact ⟨canon_sessions_update _ _ _ h.1, h.2⟩

theorem canon_updateLocalUsername (st : StoreState) (rid : String) (u : User) (nowP : Int)
    (h : CanonKeys st) : CanonKeys (updateLocalUsername st rid u nowP) := by
  cases hl : lookupSession st.sessions (normalizeRoomId rid) with
  | none =>
    simp only [updateLocalUsername, hl]
    exact h
  | some s =>
    simp only [updateLocalUsername, hl]
    exact canon_setLocalAwarenessOp _ _ _ _ h

theorem canon_announceJoin (st2 : StoreState) (nid : String) (u : User) (msgId : String)
    (sysNow : Int) (fresh : Nat → String × Int) (h : CanonKeys st2) :
    CanonKeys (announceJoin st2 nid u msgId sysNow fresh) := by
  cases hl : lookupSession st2.sessions nid with
  | none =>
    simp only [announceJoin, hl]
    exact h
  | some s =>
    simp only [announceJoin, hl]
    split
    · exact h
    · have hrec := canon_recordSystemMessage st2 nid (welcomeText u) ⟨msgId, sysNow, fresh⟩ h
      exact ⟨canon_sessions_update _ _ _ hrec.1, hrec.2⟩

theorem canon_connect (st : StoreState) (rid : String) (u : User) (stored : List String)
    (ctx : ConnectCtx) (h : CanonKeys st) : CanonKeys (connect st rid u stored ctx) := by
  have h1 := canon_markRoomKnown st (normalizeRoomId rid) stored h
  cases hl : lookupSession (markRoomKnown st (normalizeRoomId rid) stored).sessions
      (normalizeRoomId rid) with
  | none =>
    simp only [connect, hl]
    apply canon_announceJoin
    refine ⟨?_, h1.2⟩
    intro kv hkv
    rcases mem_setSession _ _ _ kv hkv with hkv1 | hkv1
    · rw [hkv1]
      exact normalizeRoomId_idempotent rid
    · exact h1.1 kv hkv1
  | some s =>
    simp only [connect, hl]
    exact canon_announceJoin _ _ _ _ _ _ (canon_setLocalAwarenessOp _ _ _ _ h1)

theorem canon_disconnect (st : StoreState) (rid : String) (u : User) (ctx : OpCtx)
    (h : CanonKeys st) : CanonKeys (disconnect st rid u ctx) := by
  cases hl : lookupSession st.sessions (normalizeRoomId rid) with
  | none =>
    simp only [disconnect, hl]
    exact h
  | some s =>
    simp only [disconnect, hl]
    by_cases hann : s.hasAnnouncedJoin = true
    · rw [if_pos hann]
      have hrec := canon_recordSystemMessage st (normalizeRoomId rid) (leaveText u) ctx h
      refine ⟨?_, hrec.2⟩
      intro kv hkv
      have hm := (List.mem_filter.mp hkv).1
      exact canon_sessions_update _ _ _ hrec.1 kv hm
    · rw [if_neg hann]
      refine ⟨?_, h.2⟩
      intro kv hkv
      have hm := (List.mem_filter.mp hkv).1
      exact h.1 kv hm

theorem canon_receiveRemote (st : StoreState) (nid : String) (entry : Option RawFields)
    (fresh : Nat → String × Int) (h : CanonKeys st) :
    CanonKeys (receiveRemote st nid entry fresh) := by
  cases hl : lookupSession st.sessions nid with
  | none =>
    simp only [receiveRemote, hl]
    exact h
  | some s =>
    simp only [receiveRemote, hl]
    exact canon_pushEntry _ _ _ _ h

theorem canonKeys_reachable (st : StoreState) (h : Reachable st) : CanonKeys st := by
  induction h with
  | init => exact ⟨by simp, by simp⟩
  | ensure st stored _ ih => exact canon_ensureLoaded st stored ih
  | mark st rid stored _ ih => exact canon_markRoomKnown st rid stored ih
  | conn st rid u stored ctx _ ih => exact canon_connect st rid u stored ctx ih
  | disc st rid u ctx _ ih => exact canon_disconnect st rid u ctx ih
  | send st rid p ctx _ ih => exact canon_sendMessage st rid p ctx ih
  | rename st rid u nowP _ ih => exact canon_updateLocalUsername st rid u nowP ih
  | record st rid content ctx _ ih => exact canon_recordSystemMessage st rid content ctx ih
  | remote st nid entry fresh _ ih => exact canon_receiveRemote st nid entry fresh ih
  | room st rid stored _ ih => exact canon_ensureLoaded st stored ih

/-- **C9** (canonical room addressing): `normalizeRoomId` is
idempotent; every public room-keyed operation behaves identically on a
room id and on its canonical form; and in every reachable store state,
every session-map key and every known room id equals its own
canonicalization. -/
theorem c9_canonical_addressing :
    (∀ r, normalizeRoomId (normalizeRoomId r) = normalizeRoomId r) ∧
    (∀ st r u stored ctx, connect st r u stored ctx
      = connect st (normalizeRoomId r) u stored ctx) ∧
    (∀ st r u ctx, disconnect st r u ctx = disconnect st (normalizeRoomId r) u ctx) ∧
    (∀ st r p ctx, sendMessage st r p ctx = sendMessage st (normalizeRoomId r) p ctx) ∧
    (∀ st r content ctx, recordSystemMessage st r content ctx
      = recordSystemMessage st (normalizeRoomId r) content ctx) ∧
    (∀ st r u nowP, updateLocalUsername st r u nowP
      = updateLocalUsername st (normalizeRoomId r) u nowP) ∧
    (∀ st r, getMessages st r = getMessages st (normalizeRoomId r)) ∧
    (∀ st r, getParticipants st r = getParticipants st (normalizeRoomId r)) ∧
    (∀ st r stored, hasRoom st r stored = hasRoom st (normalizeRoomId r) stored) ∧
    (∀ st r stored, markRoomKnown st r stored = markRoomKnown st (normalizeRoomId r) stored) ∧
    (∀ st, Reachable st →
      (∀ kv ∈ st.sessions, normalizeRoomId kv.1 = kv.1) ∧
      (∀ room ∈ st.knownRooms, normalizeRoomId room = room)) := by
  refine ⟨normalizeRoomId_idempotent, ?_, ?_, ?_, ?_, ?_, ?_, ?_, ?_, ?_, ?_⟩
  · intro st r u stored ctx
    simp only [connect, normalizeRoomId_idempotent]
  · intro st r u ctx
    simp only [disconnect, normalizeRoomId_idempotent]
  · intro st r p ctx
    simp only [sendMessage, normalizeRoomId_idempotent]
  · intro st r content ctx
    simp only [recordSystemMessage, normalizeRoomId_idempotent]
  · intro st r u nowP
    simp only [updateLocalUsername, normalizeRoomId_idempotent]
  · intro st r
    simp only [getMessages, normalizeRoomId_idempotent]
  · intro st r
    simp only [getParticipants, normalizeRoomId_idempotent]
  · intro st r stored
    simp only [hasRoom, normalizeRoomId_idempotent]
  · intro st r stored
    simp only [markRoomKnown, normalizeRoomId_idempotent]
  · intro st h
    exact canonKeys_reachable st h

/-- Witness for C9: the invariant at a concrete reachable state (one
connect from the initial store). -/
theorem c9_witness :
    (∀ kv ∈ (connect ⟨[], [], false⟩ " r " ⟨"u", "n"⟩ []
        ⟨0, 0, "m", 5, fun _ => ("f", 0)⟩).sessions, normalizeRoomId kv.1 = kv.1) ∧
    (∀ room ∈ (connect ⟨[], [], false⟩ " r " ⟨"u", "n"⟩ []
        ⟨0, 0, "m", 5, fun _ => ("f", 0)⟩).knownRooms, normalizeRoomId room = room) :=
  c9_canonical_addressing.2.2.2.2.2.2.2.2.2.2 _
    (Reachable.conn _ " r " ⟨"u", "n"⟩ [] ⟨0, 0, "m", 5, fun _ => ("f", 0)⟩ Reachable.init)

end ChatRoom
